import Mathlib

/-!
# Lua scripting filter of skipper: pool, bindings and filter construction

A shallow embedding of `script/script.go`, and of the helpers `containsCount` and
`containsEveryLineCount` of `dataclients/kubernetes/clusterclient_test.go`.  Stateful Go
code is written with explicit state passing: every operation takes the state it reads and
returns the state it leaves.

* A `*lua.LState` is identified by the number of the `lua.NewState()` call that made it.
* The pool `chan *lua.LState` is a nil channel or a buffered channel object with its
  capacity, its FIFO buffer and its closed flag; `select` with a `default` branch is the
  non-blocking receive / send of the Go runtime.
* The gopher-lua engine, the parser and the file system are outside the repository and
  enter as data: a compiled chunk is represented by what its protected call does in a
  fresh interpreter.
-/

namespace Skipper

/-! ## Go values and errors -/

/-- Go `error` values met in the package. -/
inductive Error
  /-- The sentinel `filters.ErrInvalidFilterParameters`. -/
  | ErrInvalidFilterParameters
  /-- The value of `errors.New(msg)`. -/
  | new (msg : String)
  /-- An error handed back by `os.Open`, the Lua parser, the Lua compiler or `PCall`. -/
  | lib (msg : String)
deriving DecidableEq, Repr

/-- Outcome of a Go call: it returns, or it panics. -/
inductive Go (α : Type)
  | ret (a : α)
  | panic (msg : String)
deriving Repr

/-- A Go `interface{}` value, by dynamic type. -/
inductive GoValue
  | nil
  | string (s : String)
  | int (i : Int)
  | int64 (i : Int)
  | float64 (x : Float)
  | bool (b : Bool)
  | other (typeName : String)

/-! ## Go strings

A Go string is given by the list of its characters where the package `strings` works on
it. -/

/-- The function `strings.Index`: the position of the first occurrence of `substr` in `s`;
`none` stands for the result -1. -/
def Index : List Char → List Char → Option Nat
  | [], substr => if substr.isPrefixOf [] then some 0 else none
  | c :: t, substr =>
    if substr.isPrefixOf (c :: t) then some 0 else (Index t substr).map (· + 1)

/-- The loop of `genSplit` in the package `strings`, for a separator that is not empty:
up to `n` times the text before the next separator is cut off; what is left is the last
piece. -/
def splitLoop (sep : List Char) : Nat → List Char → List (List Char)
  | 0, s => [s]
  | n + 1, s =>
    match Index s sep with
    | none => [s]
    | some m => s.take m :: splitLoop sep n (s.drop (m + sep.length))

/-- The function `strings.SplitN(s, sep, n)` for a separator that is not empty and
`n > 0`: at most `n` pieces, and never more than `len(s) + 1`. -/
def SplitN (s sep : List Char) (n : Nat) : List (List Char) :=
  splitLoop sep (min n (s.length + 1) - 1) s

/-- The function `strings.Split(s, sep)` for a separator that is not empty: `s` is cut at
every separator (there are at most `len(s)` of them). -/
def Split (s sep : List Char) : List (List Char) :=
  splitLoop sep s.length s

/-! ## Lua values (gopher-lua `LValue`) -/

/-- The type tags of gopher-lua, `LValueType`. -/
inductive LValueType
  | LTNil | LTBool | LTNumber | LTString | LTFunction | LTUserData | LTThread | LTTable
  | LTChannel
deriving DecidableEq, Repr

/-- A script-level value.  `LNumber` is a `float64`.  Functions, userdata, threads, tables
and channels are references, given by their address; a table also by its entries in the
order `ForEach` visits them. -/
inductive LValue
  | LNil
  | LBool (b : Bool)
  | LNumber (n : Float)
  | LString (s : String)
  | LFunction (addr : Nat)
  | LUserData (addr : Nat)
  | LThread (addr : Nat)
  | LTable (addr : Nat) (entries : List (LValue × LValue))
  | LChannel (addr : Nat)

/-- The method `LValue.Type()`. -/
def LValue.luaType : LValue → LValueType
  | .LNil => .LTNil
  | .LBool _ => .LTBool
  | .LNumber _ => .LTNumber
  | .LString _ => .LTString
  | .LFunction _ => .LTFunction
  | .LUserData _ => .LTUserData
  | .LThread _ => .LTThread
  | .LTable _ _ => .LTTable
  | .LChannel _ => .LTChannel

/-- Library functions of Go and gopher-lua whose result is text formatting only. -/
structure Lib where
  /-- The function `textproto.CanonicalMIMEHeaderKey`, applied by `http.Header` to every key. -/
  CanonicalMIMEHeaderKey : String → String
  /-- The method `LNumber.String()`: the text of a number. -/
  numberString : Float → String
  /-- The text `fmt` prints for a pointer under `%p`. -/
  pointerString : Nat → String
  /-- The Go conversion `int(n)` of a `float64`. -/
  intOfNumber : Float → Int
  /-- The function `gjson.Encode` of gopher-json on a table with the given entries. -/
  jsonEncode : List (LValue × LValue) → Except String String
  /-- The function `url.Parse`, giving the `String()` form of the parsed URL. -/
  urlParse : String → Except String String

/-- The gopher-lua function `LVAsString`, which is what `LState.ToString(n)` applies to the
value at stack index `n`: "returns string representation of a given LValue if the LValue
is a string or number, otherwise an empty string". -/
def LVAsString (lib : Lib) : LValue → String
  | .LString s => s
  | .LNumber n => lib.numberString n
  | _ => ""

/-- The method `LValue.String()` of gopher-lua, the string form of a value, which is also
what Lua's `tostring` gives for a value without a `__tostring` metamethod. -/
def LValue.String (lib : Lib) : LValue → String
  | .LNil => "nil"
  | .LBool b => if b then "true" else "false"
  | .LNumber n => lib.numberString n
  | .LString s => s
  | .LFunction addr => "function: " ++ lib.pointerString addr
  | .LUserData addr => "userdata: " ++ lib.pointerString addr
  | .LThread addr => "thread: " ++ lib.pointerString addr
  | .LTable addr _ => "table: " ++ lib.pointerString addr
  | .LChannel addr => "channel: " ++ lib.pointerString addr

/-! ## The filter context and the script bindings -/

/-- The state bag `map[string]interface{}` of a filter context (a non-nil map). -/
structure StateBag where
  entries : String → Option GoValue

/-- The assignment `bag[key] = value`. -/
def StateBag.set (bag : StateBag) (key : String) (value : GoValue) : StateBag :=
  { entries := fun k => if k = key then some value else bag.entries k }

/-- An `http.Header`, a non-nil `map[string][]string`. -/
structure Header where
  entries : String → Option (List String)

/-- The method `Header.Get`: the first value under the canonical key, or "". -/
def Header.Get (lib : Lib) (h : Header) (key : String) : String :=
  match h.entries (lib.CanonicalMIMEHeaderKey key) with
  | some (v :: _) => v
  | _ => ""

/-- The method `Header.Set`: the canonical key gets the single value. -/
def Header.Set (lib : Lib) (h : Header) (key value : String) : Header :=
  { entries := fun k => if k = lib.CanonicalMIMEHeaderKey key then some [value]
      else h.entries k }

/-- The method `Header.Del`: the canonical key is deleted. -/
def Header.Del (lib : Lib) (h : Header) (key : String) : Header :=
  { entries := fun k => if k = lib.CanonicalMIMEHeaderKey key then none else h.entries k }

/-- The part of `*http.Request` the bindings use.  `URL` is the `String()` form of the
request URL. -/
structure Request where
  Header : Header
  Host : String
  RemoteAddr : String
  ContentLength : Int
  Proto : String
  Method : String
  URL : String

/-- The part of `*http.Response` the package reads and writes.  `Header` is `none` for the
nil map and `Body` is `none` for the nil reader, as in the zero value `&http.Response{}`;
a body that is set is given by the bytes it yields. -/
structure Response where
  StatusCode : Int
  Header : Option Header
  Body : Option String

/-- The state behind a `filters.FilterContext`.  `Response` is `none` while `f.Response()` is
nil (the backend has not answered yet); `served` lists the responses handed to `f.Serve`,
oldest first. -/
structure FilterContext where
  Request : Request
  Response : Option Response
  StateBag : StateBag
  OutgoingHost : String
  BackendUrl : String
  served : List Skipper.Response

/-- The Go function behind `__index` of `state_bag`, called with the key on top of the
stack.  The result is the context afterwards and the values returned to the script. -/
def getStateBag (lib : Lib) (f : FilterContext) (key : LValue) :
    FilterContext × List LValue :=
  let fld := LVAsString lib key
  match f.StateBag.entries fld with
  | none => (f, [.LNil])
  | some (.string res) => (f, [.LString res])
  | some (.int res) => (f, [.LNumber (Float.ofInt res)])
  | some (.int64 res) => (f, [.LNumber (Float.ofInt res)])
  | some (.float64 res) => (f, [.LNumber res])
  | some _ => (f, [.LNil])

/-- The Go function behind `__newindex` of `state_bag`, called with the key below the
value on the stack. -/
def setStateBag (lib : Lib) (f : FilterContext) (key val : LValue) :
    FilterContext × List LValue :=
  let fld := LVAsString lib key
  match val with
  | .LString v => ({ f with StateBag := f.StateBag.set fld (.string v) }, [])
  | .LNumber v => ({ f with StateBag := f.StateBag.set fld (.float64 v) }, [])
  | _ => (f, [.LString "unsupported type for state bag"])

/-- The Go function behind `__index` of `request.header`. -/
def getRequestHeader (lib : Lib) (f : FilterContext) (key : LValue) :
    FilterContext × List LValue :=
  let hdr := LVAsString lib key
  let res := f.Request.Header.Get lib hdr
  (f, [.LString res])

/-- The Go function behind `__newindex` of `request.header`. -/
def setRequestHeader (lib : Lib) (f : FilterContext) (key lv : LValue) :
    FilterContext × List LValue :=
  let hdr := LVAsString lib key
  match lv with
  | .LNil => ({ f with Request := { f.Request with Header := f.Request.Header.Del lib hdr } }, [])
  | .LString str =>
    if str = "" then
      ({ f with Request := { f.Request with Header := f.Request.Header.Del lib hdr } }, [])
    else
      ({ f with Request := { f.Request with Header := f.Request.Header.Set lib hdr str } }, [])
  | _ =>
    let val := LVAsString lib lv
    ({ f with Request := { f.Request with Header := f.Request.Header.Set lib hdr val } }, [])

/-- The method `Header.Get` on a map that may be nil: a nil map has no entries. -/
def Header.getNil (lib : Lib) (h : Option Header) (key : String) : String :=
  match h with
  | none => ""
  | some h => h.Get lib key

/-- The method `Header.Set` on a map that may be nil: assignment to an entry of a nil map
panics. -/
def Header.setNil (lib : Lib) (h : Option Header) (key value : String) : Go (Option Header) :=
  match h with
  | none => .panic "assignment to entry in nil map"
  | some h => .ret (some (h.Set lib key value))

/-- The method `Header.Del` on a map that may be nil: `delete` on a nil map does nothing. -/
def Header.delNil (lib : Lib) (h : Option Header) (key : String) : Option Header :=
  match h with
  | none => none
  | some h => some (h.Del lib key)

/-- The Go function behind `__index` of `response.header`.  It panics while `f.Response()`
is nil. -/
def getResponseHeader (lib : Lib) (f : FilterContext) (key : LValue) :
    Go (FilterContext × List LValue) :=
  let hdr := LVAsString lib key
  match f.Response with
  | none => .panic "invalid memory address or nil pointer dereference"
  | some r => .ret (f, [.LString (Header.getNil lib r.Header hdr)])

/-- The Go function `setResponseHeader`. -/
def setResponseHeader (lib : Lib) (f : FilterContext) (key lv : LValue) :
    Go (FilterContext × List LValue) :=
  let hdr := LVAsString lib key
  match f.Response with
  | none => .panic "invalid memory address or nil pointer dereference"
  | some r =>
    match lv with
    | .LNil =>
      .ret ({ f with Response := some { r with Header := Header.delNil lib r.Header hdr } }, [])
    | .LString str =>
      if str = "" then
        .ret ({ f with Response := some { r with Header := Header.delNil lib r.Header hdr } },
          [])
      else
        match Header.setNil lib r.Header hdr str with
        | .panic msg => .panic msg
        | .ret h => .ret ({ f with Response := some { r with Header := h } }, [])
    | _ =>
      let val := LVAsString lib lv
      match Header.setNil lib r.Header hdr val with
      | .panic msg => .panic msg
      | .ret h => .ret ({ f with Response := some { r with Header := h } }, [])

/-- The Go function `setRequestValue`, behind `__newindex` of `request`. -/
def setRequestValue (lib : Lib) (f : FilterContext) (key val : LValue) :
    FilterContext × List LValue :=
  let key := LVAsString lib key
  if key = "outgoing_host" then
    ({ f with OutgoingHost := LVAsString lib val }, [])
  else if key = "url" then
    match lib.urlParse (LVAsString lib val) with
    | .error err => (f, [.LString err])
    | .ok u => ({ f with Request := { f.Request with URL := u } }, [])
  else (f, [])

/-! ## Response synthesis: `serve` -/

/-- The method `LTable.ForEach`: the callback runs on every entry whose value is not nil,
in the order the table yields them; `acc` is the state the callback works on. -/
def ForEach {σ : Type} (entries : List (LValue × LValue)) (cb : σ → LValue → LValue → σ)
    (acc : σ) : σ :=
  entries.foldl (fun acc kv =>
    match kv.2 with
    | .LNil => acc
    | v => cb acc kv.1 v) acc

/-- The callback of `serveHeaderWalk`, on the header map `h` made by `make(http.Header)`. -/
def serveHeaderWalk (lib : Lib) (h : Header) (k v : LValue) : Header :=
  h.Set lib (k.String lib) (v.String lib)

/-- The callback of `serveTableWalk`, on the response `res` under construction. -/
def serveTableWalk (lib : Lib) (res : Response) (k v : LValue) : Response :=
  match k with
  | .LString s =>
    if s = "status_code" then
      match v with
      | .LNumber n => { res with StatusCode := lib.intOfNumber n }
      | _ => res
    else if s = "header" then
      match v with
      | .LTable _ t =>
        { res with Header := some (ForEach t (serveHeaderWalk lib) { entries := fun _ => none }) }
      | _ => res
    else if s = "body" then
      match v with
      | .LString data => { res with Body := some data }
      | .LTable _ t =>
        match lib.jsonEncode t with
        | .error _ => res
        | .ok body => { res with Body := some body }
      | _ => { res with Body := some "" }
    else res
  | _ => res

/-- The Go function made by `serveRequest(f)`, called with `t` on top of the stack.  The
call `f.Serve(res)` appends `res` to `served`. -/
def serveRequest (lib : Lib) (f : FilterContext) (t : LValue) : FilterContext × List LValue :=
  match t with
  | .LTable _ r =>
    let res := ForEach r (serveTableWalk lib) { StatusCode := 0, Header := none, Body := none }
    ({ f with served := f.served ++ [res] }, [])
  | _ => (f, [.LString "invalid type, need a table"])

/-- The bytes a response carries as its body: none when `Body` is nil. -/
def Response.bodyBytes (r : Response) : String :=
  r.Body.getD ""

/-- The values a header name has once the entries of a `header` table have been set one
after the other with `Header.Set`: the single value of the last entry whose key has this
canonical name, and nothing when no entry has. -/
def lastHeaderValue (lib : Lib) (t : List (LValue × LValue)) (name : String) :
    Option (List String) :=
  (t.reverse.find? (fun kv => decide (lib.CanonicalMIMEHeaderKey (kv.1.String lib) = name))).map
    (fun kv => [kv.2.String lib])

/-! ## The dispatch tables of the script-visible objects -/

/-- The Go closures of the package that are handed to the interpreter as Lua functions. -/
inductive GoFunction
  | getContextValue | getRequestValue | setRequestValue | getResponseValue
  | getStateBag | setStateBag | getRequestHeader | setRequestHeader
  | getResponseHeader | setResponseHeader | serveRequest
deriving DecidableEq, Repr

/-- The tables the package makes for the script: the context table of
`filterContextAsLuaTable`, the tables `request`, `response` and `state_bag` of
`getContextValue`, and the `header` tables of `getRequestValue` and `getResponseValue`.
Each is made empty and no Go function stores into it. -/
inductive Proxy
  | context | request | response | state_bag | requestHeader | responseHeader
deriving DecidableEq, Repr

/-- A metatable as the package fills it: the fields `__index` and `__newindex`. -/
structure Metatable where
  index : Option GoFunction
  newindex : Option GoFunction
deriving DecidableEq, Repr

/-- The metatable each table gets from its `SetMetatable` call.  For `response` the line
that would set `__newindex` is commented out in `getContextValue`; for the `header` table
of `response`, `getResponseValue` sets both fields. -/
def Proxy.metatable : Proxy → Metatable
  | .context => { index := some .getContextValue, newindex := none }
  | .request => { index := some .getRequestValue, newindex := some .setRequestValue }
  | .response => { index := some .getResponseValue, newindex := none }
  | .state_bag => { index := some .getStateBag, newindex := some .setStateBag }
  | .requestHeader => { index := some .getRequestHeader, newindex := some .setRequestHeader }
  | .responseHeader =>
    { index := some .getResponseHeader, newindex := some .setResponseHeader }

/-- What an `__index` function hands to the script: one of the tables, a Go function, or
a plain value. -/
inductive Field
  | proxy (p : Proxy)
  | function (g : GoFunction)
  | value (v : LValue)

/-- The Go function `getContextValue`, by the key it is asked for. -/
def getContextValue (key : String) : Field :=
  if key = "request" then .proxy .request
  else if key = "response" then .proxy .response
  else if key = "state_bag" then .proxy .state_bag
  else if key = "serve" then .function .serveRequest
  else .value .LNil

/-- The Go function `getRequestValue`. -/
def getRequestValue (f : FilterContext) (key : String) : Field :=
  if key = "header" then .proxy .requestHeader
  else if key = "outgoing_host" then .value (.LString f.OutgoingHost)
  else if key = "backend_url" then .value (.LString f.BackendUrl)
  else if key = "host" then .value (.LString f.Request.Host)
  else if key = "remote_addr" then .value (.LString f.Request.RemoteAddr)
  else if key = "content_length" then .value (.LNumber (Float.ofInt f.Request.ContentLength))
  else if key = "proto" then .value (.LString f.Request.Proto)
  else if key = "method" then .value (.LString f.Request.Method)
  else if key = "url" then .value (.LString f.Request.URL)
  else .value .LNil

/-- The Go function `getResponseValue`. -/
def getResponseValue (key : String) : Field :=
  if key = "header" then .proxy .responseHeader
  else .value .LNil

/-- The call of a Go function as `__newindex` handler, with the key and the value of the
assignment.  The functions the package never installs as `__newindex` are not called. -/
def callNewindex (lib : Lib) (f : FilterContext) (key value : LValue) :
    GoFunction → Go (FilterContext × List LValue)
  | .setRequestValue => .ret (setRequestValue lib f key value)
  | .setStateBag => .ret (setStateBag lib f key value)
  | .setRequestHeader => .ret (setRequestHeader lib f key value)
  | .setResponseHeader => setResponseHeader lib f key value
  | _ => .ret (f, [])

/-- The script statement `t[key] = value` on one of the tables.  The table has no entry
of its own, so the assignment goes to `__newindex` when the metatable has one; without
one it is a plain store into the table, which leaves the filter context as it is. -/
def Proxy.assign (lib : Lib) (f : FilterContext) (p : Proxy) (key value : LValue) :
    Go (FilterContext × List LValue) :=
  match p.metatable.newindex with
  | some g => callNewindex lib f key value g
  | none => .ret (f, [])

/-- What the script gets from the statement `t[key] = value`: an assignment is a
statement, and gopher-lua calls a `__newindex` function for no results (`ls.Call(3, 0)` in
`setField`), so the values the function returns are dropped.  The result is the filter
context afterwards and the values delivered to the script, of which there are none. -/
def Proxy.assignStatement (lib : Lib) (f : FilterContext) (p : Proxy) (key value : LValue) :
    Go (FilterContext × List LValue) :=
  match Proxy.assign lib f p key value with
  | .panic msg => .panic msg
  | .ret (f1, _) => .ret (f1, [])

/-! ## Interpreters, the world and the pool -/

/-- Identity of an interpreter: the number of the `lua.NewState()` call that made it.
A non-nil `*lua.LState` points to one of these. -/
abbrev LState := Nat

/-- A compiled chunk `*lua.FunctionProto`, given by the outcome of its protected call
`L.PCall(0, lua.MultRet, nil)` in the fresh interpreter `L`: an error message, or the
globals the chunk has defined. -/
structure FunctionProto where
  pcall : LState → Except String (String → LValue)
  /-- The protected call `L.CallByParam(lua.P{Fn: L.GetGlobal(name), NRet: 0, Protect: true},
  ctx, pt)` of the hook `name` in the interpreter `L`, when it returns: the filter context
  it leaves and the error it returns, if any. -/
  call : LState → String → FilterContext → (String → Option LValue) →
    FilterContext × Option String

/-- A call that leaves the package. -/
inductive Call
  | osOpen (path : String)
  | parse (name : String)
  | compile (name : String)
  | close (L : LState)
deriving DecidableEq, Repr

/-- The world outside the filter: how many interpreters `lua.NewState()` has made so far,
and the calls made to the file system, the parser, the compiler and `LState.Close`, oldest
first. -/
structure World where
  created : Nat
  calls : List Call
deriving DecidableEq, Repr

/-- Record a call. -/
def World.record (w : World) (c : Call) : World :=
  { w with calls := w.calls ++ [c] }

/-- The call `L.Close()`. -/
def World.close (w : World) (L : LState) : World :=
  w.record (.close L)

/-- A channel object made by `make(chan *lua.LState, cap)`. -/
structure Chan where
  cap : Nat
  buf : List LState
  closed : Bool
deriving DecidableEq, Repr

/-- A receive inside `select` with a `default` branch.  `none`: the receive is not ready
(nil channel, or open channel with an empty buffer) and `default` runs.  Otherwise the
received pointer, `none` standing for the nil pointer a closed and drained channel
yields, and the channel afterwards. -/
def Chan.recvNB : Option Chan → Option (Option LState × Option Chan)
  | none => none
  | some ch =>
    match ch.buf with
    | L :: rest => some (some L, some { ch with buf := rest })
    | [] => if ch.closed then some (none, some ch) else none

/-- A send inside `select` with a `default` branch, on a non-nil channel.  A send on a
closed channel panics; a send on a full channel is not ready (`none`, `default` runs);
otherwise the value is queued. -/
def Chan.sendNB (ch : Chan) (L : LState) : Go (Option Chan) :=
  if ch.closed then .panic "send on closed channel"
  else if ch.buf.length < ch.cap then .ret (some { ch with buf := ch.buf ++ [L] })
  else .ret none

/-- The struct `script`. -/
structure script where
  source : String
  routeParams : List String
  pool : Option Chan
  proto : FunctionProto
  hasRequest : Bool
  hasResponse : Bool

/-- The method `newState`: a fresh interpreter runs the compiled chunk; when the protected
call fails the interpreter is closed and the error returned. -/
def script.newState (s : script) (w : World) : Except Error LState × World :=
  let L : LState := w.created
  let w1 : World := { w with created := w.created + 1 }
  match s.proto.pcall L with
  | .error msg => (.error (.lib msg), w1.close L)
  | .ok _ => (.ok L, w1)

/-- The method `getState`. -/
def script.getState (s : script) (w : World) : Except Error LState × script × World :=
  match Chan.recvNB s.pool with
  | some (none, pool1) => (.error (.new "pool closed"), { s with pool := pool1 }, w)
  | some (some L, pool1) => (.ok L, { s with pool := pool1 }, w)
  | none =>
    let r := s.newState w
    (r.1, s, r.2)

/-- The method `putState`.  Every caller passes a non-nil pointer. -/
def script.putState (s : script) (w : World) (L : LState) : Go (script × World) :=
  match s.pool with
  | none => .ret (s, w.close L)
  | some ch =>
    match ch.sendNB L with
    | .panic msg => .panic msg
    | .ret (some ch1) => .ret ({ s with pool := some ch1 }, w)
    | .ret none => .ret (s, w.close L)

/-- The instances stored in the pool, oldest first. -/
def script.stored (s : script) : List LState :=
  match s.pool with
  | none => []
  | some ch => ch.buf

/-! ## Hook invocation -/

/-- The method `LTable.RawSetString` on the string keys of a table: a nil value deletes
the key, any other value is stored under it. -/
def RawSetString (tbl : String → Option LValue) (key : String) (value : LValue) :
    String → Option LValue :=
  match value with
  | .LNil => fun k => if k = key then none else tbl k
  | v => fun k => if k = key then some v else tbl k

/-- The body of the loop over `s.routeParams` in `runFunc`, on the table `pt`. -/
def setParam (pt : String → Option LValue) (p : String) : String → Option LValue :=
  let parts := SplitN p.toList ['='] 2
  let parts := if parts.length = 1 then parts ++ [[]] else parts
  RawSetString pt (String.mk (parts.getD 0 [])) (.LString (String.mk (parts.getD 1 [])))

/-- The table `pt` that `runFunc` makes from the route parameters, by its string keys. -/
def paramTable (routeParams : List String) : String → Option LValue :=
  routeParams.foldl setParam (fun _ => none)

/-- The key of a route parameter in the words of the specification: the string up to its
first `=`, the whole string when it has none. -/
def paramKey (p : String) : String :=
  String.mk (p.toList.takeWhile (fun c => c != '='))

/-- The value of a route parameter in the words of the specification: the text after its
first `=`, the empty string when it has none. -/
def paramValue (p : String) : String :=
  String.mk ((p.toList.dropWhile (fun c => c != '=')).drop 1)

/-- The method `runFunc`.  When `getState` fails the method returns at once; otherwise
the hook is called under protection and `putState(L)` runs when the method returns
(`defer s.putState(L)`), whatever the call returned. -/
def script.runFunc (s : script) (w : World) (name : String) (f : FilterContext) :
    Go (script × World × FilterContext) :=
  match s.getState w with
  | (.error _, s1, w1) => .ret (s1, w1, f)
  | (.ok L, s1, w1) =>
    let pt := paramTable s.routeParams
    let r := s.proto.call L name f pt
    match s1.putState w1 L with
    | .panic msg => .panic msg
    | .ret (s2, w2) => .ret (s2, w2, r.1)

/-- The method `Request`. -/
def script.Request (s : script) (w : World) (f : FilterContext) :
    Go (script × World × FilterContext) :=
  if s.hasRequest then s.runFunc w "request" f else .ret (s, w, f)

/-- The method `Response`. -/
def script.Response (s : script) (w : World) (f : FilterContext) :
    Go (script × World × FilterContext) :=
  if s.hasResponse then s.runFunc w "response" f else .ret (s, w, f)

/-! ## Filter construction -/

/-- The package variables `InitialPoolSize` and `MaxPoolSize`, Go `int`s with defaults 3
and 10. -/
structure Tunables where
  InitialPoolSize : Int := 3
  MaxPoolSize : Int := 10
deriving DecidableEq, Repr

/-- A parsed chunk, the `[]ast.Stmt` of `lua_parse.Parse`. -/
structure Chunk where
  stmts : List String
deriving DecidableEq, Repr

/-- The file system, the Lua parser and the Lua compiler. -/
structure Env where
  /-- The call `os.Open(path)`, giving the text a reader of the file yields. -/
  osOpen : String → Except String String
  /-- The call `lua_parse.Parse(reader, name)` on a reader of the given text. -/
  parse : String → String → Except String Chunk
  /-- The call `lua.Compile(chunk, name)`. -/
  compile : Chunk → String → Except String FunctionProto

/-- The function `strings.HasSuffix`. -/
def HasSuffix (s suffix : String) : Bool :=
  suffix.toList.isSuffixOf s.toList

/-- The call `L.GetGlobal(name)` on an interpreter made by `newState`. -/
def script.GetGlobal (s : script) (L : LState) (name : String) : LValue :=
  match s.proto.pcall L with
  | .ok globals => globals name
  | .error _ => .LNil

/-- The loop `for i := 0; i < InitialPoolSize; i++` of `initScript`, with `n` iterations
left: each makes a state and puts it into the pool; a failing `newState` ends it. -/
def script.seedPool (s : script) (w : World) : Nat → Go (Option Error × script × World)
  | 0 => .ret (none, s, w)
  | n + 1 =>
    match s.newState w with
    | (.error err, w1) => .ret (some err, s, w1)
    | (.ok L, w1) =>
      match s.putState w1 L with
      | .panic msg => .panic msg
      | .ret (s2, w2) => script.seedPool s2 w2 n

/-- The first part of `initScript`: the reader and the chunk name for the source. -/
def openSource (env : Env) (source : String) (w : World) :
    Except Error (String × String) × World :=
  if HasSuffix source ".lua" then
    match env.osOpen source with
    | .error msg => (.error (.lib msg), w.record (.osOpen source))
    | .ok text => (.ok (text, source), w.record (.osOpen source))
  else (.ok (source, "<script>"), w)

/-- The part "Compile" of `initScript`: open the file when the source names one, parse,
compile. -/
def compileSource (env : Env) (source : String) (w : World) :
    Except Error FunctionProto × World :=
  match openSource env source w with
  | (.error err, w1) => (.error err, w1)
  | (.ok (text, name), w1) =>
    let w2 := w1.record (.parse name)
    match env.parse text name with
    | .error msg => (.error (.lib msg), w2)
    | .ok chunk =>
      let w3 := w2.record (.compile name)
      match env.compile chunk name with
      | .error msg => (.error (.lib msg), w3)
      | .ok proto => (.ok proto, w3)

/-- The part "Init state pool" of `initScript`: `make(chan *lua.LState, MaxPoolSize)`, which
panics on a negative size, then the seeding loop. -/
def script.initPool (cfg : Tunables) (s : script) (w : World) :
    Go (Option Error × script × World) :=
  if cfg.MaxPoolSize < 0 then .panic "makechan: size out of range"
  else
    script.seedPool
      { s with pool := some { cap := cfg.MaxPoolSize.toNat, buf := [], closed := false } }
      w cfg.InitialPoolSize.toNat

/-- The method `initScript`, on the struct `script{source: source, routeParams: routeParams}`.
It returns the initialised struct or the error.  The probe interpreter `L` is closed when
the method returns (`defer L.Close()`). -/
def initScript (cfg : Tunables) (env : Env) (source : String) (routeParams : List String)
    (w : World) : Go (Except Error script × World) :=
  match compileSource env source w with
  | (.error err, w1) => .ret (.error err, w1)
  | (.ok proto, w1) =>
    let s0 : script :=
      { source := source, routeParams := routeParams, pool := none, proto := proto,
        hasRequest := false, hasResponse := false }
    match s0.newState w1 with
    | (.error err, w2) => .ret (.error err, w2)
    | (.ok L, w2) =>
      let s1 : script :=
        { s0 with
          hasRequest := decide ((s0.GetGlobal L "request").luaType = .LTFunction),
          hasResponse := decide ((s0.GetGlobal L "response").luaType = .LTFunction) }
      if !s1.hasRequest && !s1.hasResponse then
        .ret (.error (.new
          "at least one of `request` and `response` function must be present"),
          w2.close L)
      else
        match s1.initPool cfg w2 with
        | .panic msg => .panic msg
        | .ret (some err, _, w3) => .ret (.error err, w3.close L)
        | .ret (none, s2, w3) => .ret (.ok s2, w3.close L)

/-- The loop of `CreateFilter` over `config[1:]`: the entries as strings, `none` as soon
as one is not a string. -/
def collectParams (params : List String) : List GoValue → Option (List String)
  | [] => some params
  | .string ps :: rest => collectParams (params ++ [ps]) rest
  | _ :: _ => none

/-- The method `luaScript.CreateFilter`. -/
def CreateFilter (cfg : Tunables) (env : Env) (config : List GoValue) (w : World) :
    Go (Except Error script × World) :=
  match config with
  | [] => .ret (.error .ErrInvalidFilterParameters, w)
  | .string src :: rest =>
    match collectParams [] rest with
    | none => .ret (.error .ErrInvalidFilterParameters, w)
    | some params => initScript cfg env src params w
  | _ :: _ => .ret (.error .ErrInvalidFilterParameters, w)

/-! ## Sequences of pool operations and concurrent hook invocations -/

/-- A call on the pool. -/
inductive PoolOp
  | get
  | put (L : LState)
deriving DecidableEq, Repr

/-- Run a sequence of `getState` and `putState` calls, first to last. -/
def script.runOps (s : script) (w : World) : List PoolOp → Go (script × World)
  | [] => .ret (s, w)
  | .get :: ops =>
    match s.getState w with
    | (_, s1, w1) => script.runOps s1 w1 ops
  | .put L :: ops =>
    match s.putState w L with
    | .panic msg => .panic msg
    | .ret (s1, w1) => script.runOps s1 w1 ops

/-- A filter with its hook invocations in flight.  `runFunc` takes a state with `getState`,
calls the hook, and gives the state back with the deferred `putState(L)`; between the two
the invocation is in flight and holds `L`.  `inflight` lists the held state of every
invocation in flight, one entry per invocation. -/
structure Sys where
  s : script
  w : World
  inflight : List LState

/-- A step of the system: a new invocation of `runFunc` runs its `getState`, or the
invocation at position `i` of `inflight` runs its deferred `putState`. -/
inductive Event
  | acquire
  | release (i : Nat)
deriving DecidableEq, Repr

/-- One step.  An invocation whose `getState` fails returns at once and never is in
flight.  `none`: the step panics. -/
def Sys.step (σ : Sys) : Event → Option Sys
  | .acquire =>
    match σ.s.getState σ.w with
    | (.ok L, s1, w1) => some { s := s1, w := w1, inflight := σ.inflight ++ [L] }
    | (.error _, s1, w1) => some { s := s1, w := w1, inflight := σ.inflight }
  | .release i =>
    match σ.inflight.get? i with
    | none => some σ
    | some L =>
      match σ.s.putState σ.w L with
      | .panic _ => none
      | .ret (s1, w1) => some { s := s1, w := w1, inflight := σ.inflight.eraseIdx i }

/-- Run a sequence of steps. -/
def Sys.run (σ : Sys) : List Event → Option Sys
  | [] => some σ
  | e :: es =>
    match σ.step e with
    | none => none
    | some σ1 => Sys.run σ1 es

/-! ## The test helpers of `dataclients/kubernetes` -/

/-- The loop `for { ... }` of `containsCount`, given `fuel` rounds: `none` when the rounds
are used up before the loop returns.  `s` is the text still to be searched and `found`
the counter. -/
def containsCountLoop (substr : List Char) (count : Int) :
    Nat → List Char → Int → Option Bool
  | 0, _, _ => none
  | fuel + 1, s, found =>
    match Index s substr with
    | none => some (decide (found = count))
    | some i =>
      if found = count then some false
      else containsCountLoop substr count fuel (s.drop (i + substr.length)) (found + 1)

/-- The function `containsCount`, given `fuel` rounds of its loop. -/
def containsCount (fuel : Nat) (s substr : List Char) (count : Int) : Option Bool :=
  containsCountLoop substr count fuel s 0

/-- The loop `for _, li := range l` of `containsEveryLineCount`. -/
def containsEveryLineCountLoop (fuel : Nat) (s : List Char) (count : Int) :
    List (List Char) → Option Bool
  | [] => some true
  | li :: l =>
    match containsCount fuel s li count with
    | none => none
    | some false => some false
    | some true => containsEveryLineCountLoop fuel s count l

/-- The function `containsEveryLineCount`, with `fuel` rounds for each `containsCount`. -/
def containsEveryLineCount (fuel : Nat) (s substr : List Char) (count : Int) : Option Bool :=
  containsEveryLineCountLoop fuel s count (Split substr ['\n'])

/-- The number of non-overlapping occurrences of a text `substr` that is not empty, counted
while reading `s` from the left: `skip` characters still belong to the occurrence counted
last; outside of it, where `substr` starts, one more occurrence is counted. -/
def occurrencesFrom (substr : List Char) : List Char → Nat → Nat
  | [], _ => 0
  | _ :: t, skip + 1 => occurrencesFrom substr t skip
  | c :: t, 0 =>
    if substr.isPrefixOf (c :: t) then 1 + occurrencesFrom substr t (substr.length - 1)
    else occurrencesFrom substr t 0

/-- The number of non-overlapping occurrences of `substr` in `s`, found by leftmost search
again and again.  For the empty text there is none: the search finds it at the start of
what is left and leaves the same text, so the count never ends. -/
def occurrences (s substr : List Char) : Option Nat :=
  if substr = [] then none else some (occurrencesFrom substr s 0)

/-- The number of occurrences of `substr` in `s` is `count`. -/
def OccursTimes (s substr : List Char) (count : Int) : Prop :=
  ∃ n : Nat, occurrences s substr = some n ∧ (n : Int) = count

/-! ## Invariants -/

/-- The pool is an open channel of capacity `c` that stores at most `c` instances. -/
def script.OpenPool (s : script) (c : Nat) : Prop :=
  ∃ ch, s.pool = some ch ∧ ch.closed = false ∧ ch.cap = c ∧ ch.buf.length ≤ c

/-- The instances `held` by invocations and the instances stored in the pool are pairwise
different, and each was made by an earlier `lua.NewState()`. -/
def Exclusive (s : script) (w : World) (held : List LState) : Prop :=
  (held ++ s.stored).Nodup ∧ ∀ L ∈ held ++ s.stored, L < w.created

/-! ## Example data -/

/-- A chunk that loads and defines the global function `request`. -/
def requestProto : FunctionProto :=
  { pcall := fun _ => .ok (fun name => if name = "request" then .LFunction 0 else .LNil),
    call := fun _ _ f _ => (f, none) }

/-- A chunk that defines the global function `request` and whose protected call succeeds
in the interpreters 0 to 3 and fails in every later one, as the load of a chunk that
reads the clock or the network may. -/
def failingProto : FunctionProto :=
  { pcall := fun L =>
      if L < 4 then .ok (fun name => if name = "request" then .LFunction 0 else .LNil)
      else .error "attempt to call a nil value",
    call := fun _ _ f _ => (f, some "attempt to index a nil value") }

/-- A filter of `requestProto` with the given pool. -/
def requestScript (pool : Option Chan) : script :=
  { source := "function request(ctx, params) end", routeParams := [], pool := pool,
    proto := requestProto, hasRequest := true, hasResponse := false }

/-- A filter of `failingProto` with the given pool. -/
def failingScript (pool : Option Chan) : script :=
  { source := "function request(ctx, params) end", routeParams := [], pool := pool,
    proto := failingProto, hasRequest := true, hasResponse := false }

/-- An environment in which every source parses and compiles to `requestProto`. -/
def requestEnv : Env :=
  { osOpen := fun _ => .error "no such file or directory",
    parse := fun _ _ => .ok { stmts := [] },
    compile := fun _ _ => .ok requestProto }

/-- An environment in which every source parses and compiles to `failingProto`. -/
def failingEnv : Env :=
  { osOpen := fun _ => .error "no such file or directory",
    parse := fun _ _ => .ok { stmts := [] },
    compile := fun _ _ => .ok failingProto }

/-- Library functions for the examples: keys that are canonical already, URLs that parse
to themselves, tables that do not encode. -/
def sampleLib : Lib :=
  { CanonicalMIMEHeaderKey := fun key => key,
    numberString := fun n => toString n,
    pointerString := fun addr => toString addr,
    intOfNumber := fun n => n.toUInt64.toNat,
    jsonEncode := fun _ => .error "cannot encode",
    urlParse := fun raw => .ok raw }

/-- A request context with the header `X-Flag: on` and the state bag entries
`user = "alice"`, `tries = int 3`, `since = time.Time`. -/
def sampleContext : FilterContext :=
  { Request :=
      { Header := { entries := fun k => if k = "X-Flag" then some ["on"] else none },
        Host := "example.org", RemoteAddr := "10.0.0.1:4711", ContentLength := 0,
        Proto := "HTTP/1.1", Method := "GET", URL := "/" },
    Response :=
      some { StatusCode := 200,
             Header := some { entries := fun k => if k = "X-Cache" then some ["hit"] else none },
             Body := some "ok" },
    StateBag := { entries := fun k =>
      if k = "user" then some (.string "alice")
      else if k = "tries" then some (.int 3)
      else if k = "since" then some (.other "time.Time")
      else none },
    OutgoingHost := "backend.example.org",
    BackendUrl := "http://backend.example.org",
    served := [] }

/-! ## Basic facts about the pool operations -/

/-- A pool that stores instances hands out the oldest one; the world is untouched. -/
theorem getState_of_cons (s : script) (w : World) (ch : Chan) (L : LState)
    (rest : List LState) (hp : s.pool = some ch) (hb : ch.buf = L :: rest) :
    s.getState w = (.ok L, { s with pool := some { ch with buf := rest } }, w) := by
  simp [script.getState, Chan.recvNB, hp, hb]

/-- An open empty pool sends `getState` to `newState`. -/
theorem getState_of_open_empty (s : script) (w : World) (ch : Chan)
    (hp : s.pool = some ch) (ho : ch.closed = false) (hb : ch.buf = []) :
    s.getState w = ((s.newState w).1, s, (s.newState w).2) := by
  simp [script.getState, Chan.recvNB, hp, hb, ho]

/-- A nil channel is never ready, so `getState` goes to `newState`. -/
theorem getState_of_nil_chan (s : script) (w : World) (hp : s.pool = none) :
    s.getState w = ((s.newState w).1, s, (s.newState w).2) := by
  simp [script.getState, Chan.recvNB, hp]

/-- An open pool with room queues the instance. -/
theorem putState_of_room (s : script) (w : World) (ch : Chan) (L : LState)
    (hp : s.pool = some ch) (ho : ch.closed = false) (hk : ch.buf.length < ch.cap) :
    s.putState w L = .ret ({ s with pool := some { ch with buf := ch.buf ++ [L] } }, w) := by
  simp [script.putState, Chan.sendNB, hp, ho, hk]

/-- An open pool without room closes the instance. -/
theorem putState_of_full (s : script) (w : World) (ch : Chan) (L : LState)
    (hp : s.pool = some ch) (ho : ch.closed = false) (hk : ¬ ch.buf.length < ch.cap) :
    s.putState w L = .ret (s, w.close L) := by
  simp [script.putState, Chan.sendNB, hp, ho, hk]

/-- Every `newState` makes exactly one interpreter. -/
theorem newState_created (s : script) (w : World) :
    (s.newState w).2.created = w.created + 1 := by
  simp only [script.newState]
  split <;> simp [World.close, World.record]

/-- The instance `newState` returns is the one it has just made. -/
theorem newState_ok (s : script) (w : World) (L : LState)
    (h : (s.newState w).1 = .ok L) : L = w.created := by
  unfold script.newState at h
  cases hq : s.proto.pcall w.created <;> simp [hq] at h
  exact h.symm

/-- Taking the entry at a position out of a list and putting it in front permutes it. -/
theorem perm_cons_eraseIdx (l : List LState) (i : Nat) (a : LState)
    (h : l.get? i = some a) : l.Perm (a :: l.eraseIdx i) := by
  induction l generalizing i with
  | nil => simp at h
  | cons b t ih =>
    cases i with
    | zero =>
      simp at h
      subst h
      simp
    | succ n =>
      simp at h
      simp only [List.eraseIdx_cons_succ]
      exact ((ih n (by simpa using h)).cons b).trans (List.Perm.swap a b _)

/-- Exclusiveness only depends on which instances are held or stored. -/
theorem Exclusive.of_perm {s s1 : script} {w w1 : World} {held held1 : List LState}
    (h : Exclusive s w held) (hperm : (held1 ++ s1.stored).Perm (held ++ s.stored))
    (hw : w.created ≤ w1.created) : Exclusive s1 w1 held1 := by
  refine ⟨(hperm.nodup_iff).2 h.1, fun L hL => ?_⟩
  exact lt_of_lt_of_le (h.2 L (hperm.subset hL)) hw

/-- Dropping instances keeps exclusiveness. -/
theorem Exclusive.of_sublist {s s1 : script} {w w1 : World} {held held1 : List LState}
    (h : Exclusive s w held) (hsub : (held1 ++ s1.stored).Sublist (held ++ s.stored))
    (hw : w.created ≤ w1.created) : Exclusive s1 w1 held1 := by
  refine ⟨h.1.sublist hsub, fun L hL => ?_⟩
  exact lt_of_lt_of_le (h.2 L (hsub.subset hL)) hw

/-- The instance `newState` makes is new to every holder and to the pool. -/
theorem newState_exclusive (s : script) (w : World) (held : List LState)
    (h : Exclusive s w held) :
    (∀ L, (s.newState w).1 = .ok L → Exclusive s (s.newState w).2 (held ++ [L])) ∧
    Exclusive s (s.newState w).2 held := by
  have hc := newState_created s w
  constructor
  · intro L hL
    have hLc := newState_ok s w L hL
    subst hLc
    refine ⟨?_, fun L hL => ?_⟩
    · have hperm : (held ++ [w.created] ++ s.stored).Perm (w.created :: (held ++ s.stored)) := by
        simp
      refine (hperm.nodup_iff).2 (List.nodup_cons.2 ⟨fun hmem => ?_, h.1⟩)
      exact lt_irrefl _ (h.2 _ hmem)
    · simp only [List.mem_append, List.mem_singleton] at hL
      rw [hc]
      rcases hL with (hL | hL) | hL
      · exact Nat.lt_succ_of_lt (h.2 L (by simp [hL]))
      · rw [hL]; exact Nat.lt_succ_self _
      · exact Nat.lt_succ_of_lt (h.2 L (by simp [hL]))
  · exact h.of_sublist (List.Sublist.refl _) (by rw [hc]; exact Nat.le_succ _)

/-- The method `getState` keeps the pool open and within its capacity. -/
theorem getState_keeps_open (s : script) (w : World) (c : Nat) (h : s.OpenPool c) :
    (s.getState w).2.1.OpenPool c := by
  obtain ⟨ch, hp, ho, hcap, hlen⟩ := h
  cases hb : ch.buf with
  | nil =>
    rw [getState_of_open_empty s w ch hp ho hb]
    exact ⟨ch, hp, ho, hcap, hlen⟩
  | cons L rest =>
    rw [getState_of_cons s w ch L rest hp hb]
    refine ⟨_, rfl, ho, hcap, ?_⟩
    simp only [hb, List.length_cons] at hlen
    simp only
    omega

/-- On an open pool `putState` returns and keeps the pool open and within its capacity. -/
theorem putState_keeps_open (s : script) (w : World) (c : Nat) (L : LState)
    (h : s.OpenPool c) :
    ∃ s1 w1, s.putState w L = .ret (s1, w1) ∧ s1.OpenPool c := by
  obtain ⟨ch, hp, ho, hcap, hlen⟩ := h
  by_cases hk : ch.buf.length < ch.cap
  · refine ⟨_, _, putState_of_room s w ch L hp ho hk, _, rfl, ho, hcap, ?_⟩
    simp only [List.length_append, List.length_singleton]
    omega
  · exact ⟨_, _, putState_of_full s w ch L hp ho hk, ch, hp, ho, hcap, hlen⟩

/-- An invocation that gets an instance from `getState` holds it alone. -/
theorem getState_exclusive (s : script) (w : World) (c : Nat) (held : List LState)
    (h : s.OpenPool c) (hx : Exclusive s w held) :
    (∀ L, (s.getState w).1 = .ok L →
      Exclusive (s.getState w).2.1 (s.getState w).2.2 (held ++ [L])) ∧
    ((∀ L, (s.getState w).1 ≠ .ok L) →
      Exclusive (s.getState w).2.1 (s.getState w).2.2 held) := by
  obtain ⟨ch, hp, ho, -, -⟩ := h
  cases hb : ch.buf with
  | nil =>
    rw [getState_of_open_empty s w ch hp ho hb]
    exact ⟨fun L hL => (newState_exclusive s w held hx).1 L hL,
      fun _ => (newState_exclusive s w held hx).2⟩
  | cons L rest =>
    rw [getState_of_cons s w ch L rest hp hb]
    constructor
    · intro L1 hL1
      simp only [Except.ok.injEq] at hL1
      subst hL1
      refine hx.of_perm ?_ (le_refl _)
      simp [script.stored, hp, hb]
    · intro hne
      exact absurd rfl (hne L)

/-- An invocation that gives its instance back leaves the others exclusive. -/
theorem putState_exclusive (s : script) (w : World) (c : Nat) (held : List LState)
    (i : Nat) (L : LState) (h : s.OpenPool c) (hx : Exclusive s w held)
    (hi : held.get? i = some L) :
    ∃ s1 w1, s.putState w L = .ret (s1, w1) ∧ s1.OpenPool c ∧
      Exclusive s1 w1 (held.eraseIdx i) := by
  obtain ⟨ch, hp, ho, hcap, hlen⟩ := h
  have hperm := perm_cons_eraseIdx held i L hi
  by_cases hk : ch.buf.length < ch.cap
  · refine ⟨_, _, putState_of_room s w ch L hp ho hk, ⟨_, rfl, ho, hcap, ?_⟩, ?_⟩
    · simp only [List.length_append, List.length_singleton]
      omega
    · refine hx.of_perm ?_ (le_refl _)
      simp only [script.stored, hp]
      have h1 : (held.eraseIdx i ++ (ch.buf ++ [L])).Perm (L :: held.eraseIdx i ++ ch.buf) := by
        rw [← List.append_assoc]
        exact List.perm_append_comm.trans (by simp)
      exact h1.trans (hperm.symm.append_right _)
  · refine ⟨_, _, putState_of_full s w ch L hp ho hk, ⟨ch, hp, ho, hcap, hlen⟩, ?_⟩
    exact hx.of_sublist ((List.eraseIdx_sublist held i).append_right _) (le_refl _)

/-- The seeding loop returns, keeps the pool within capacity and stores only new,
pairwise different instances. -/
theorem seedPool_inv (n : Nat) : ∀ (s : script) (w : World) (c : Nat),
    s.OpenPool c → Exclusive s w [] →
    ∃ e s1 w1, s.seedPool w n = .ret (e, s1, w1) ∧ s1.OpenPool c ∧ Exclusive s1 w1 [] := by
  induction n with
  | zero => exact fun s w c h hx => ⟨none, s, w, rfl, h, hx⟩
  | succ n ih =>
    intro s w c h hx
    have hn := newState_exclusive s w [] hx
    rw [script.seedPool]
    rcases hr : s.newState w with ⟨r, w1⟩
    rw [hr] at hn
    cases r with
    | error err => exact ⟨some err, s, w1, rfl, h, hn.2⟩
    | ok L =>
      obtain ⟨s2, w2, hput, h2, hx2⟩ :=
        putState_exclusive s w1 c ([] ++ [L]) 0 L h (hn.1 L rfl) rfl
      obtain ⟨e, s3, w3, hseed, h3, hx3⟩ := ih s2 w2 c h2 hx2
      exact ⟨e, s3, w3, by simp only [hput, hseed], h3, hx3⟩

/-- When the pool initialisation returns, `MaxPoolSize` is not negative and the pool is an
open channel of that capacity. -/
theorem initPool_ret (cfg : Tunables) (s s1 : script) (w w1 : World) (e : Option Error)
    (h : s.initPool cfg w = .ret (e, s1, w1)) :
    0 ≤ cfg.MaxPoolSize ∧ s1.OpenPool cfg.MaxPoolSize.toNat ∧ Exclusive s1 w1 [] := by
  unfold script.initPool at h
  by_cases hneg : cfg.MaxPoolSize < 0
  · simp [hneg] at h
  · simp only [hneg, if_false] at h
    obtain ⟨e3, s3, w3, hseed, h3, hx3⟩ := seedPool_inv cfg.InitialPoolSize.toNat
      { s with pool := some { cap := cfg.MaxPoolSize.toNat, buf := [], closed := false } }
      w cfg.MaxPoolSize.toNat ⟨_, rfl, rfl, rfl, by simp⟩
      ⟨by simp [script.stored], by simp [script.stored]⟩
    rw [hseed] at h
    simp only [Go.ret.injEq, Prod.mk.injEq] at h
    obtain ⟨-, hs, hw⟩ := h
    subst hs
    subst hw
    exact ⟨by omega, h3, hx3⟩

/-- What holds of a filter that `initScript` has initialised. -/
theorem initScript_ok (cfg : Tunables) (env : Env) (source : String)
    (routeParams : List String) (w w1 : World) (s : script)
    (h : initScript cfg env source routeParams w = .ret (.ok s, w1)) :
    0 ≤ cfg.MaxPoolSize ∧ s.OpenPool cfg.MaxPoolSize.toNat ∧ Exclusive s w1 [] := by
  unfold initScript at h
  rcases hc : compileSource env source w with ⟨r, w2⟩
  rw [hc] at h
  cases r with
  | error err => simp at h
  | ok proto =>
    simp only at h
    rcases hn : script.newState
      { source := source, routeParams := routeParams, pool := none, proto := proto,
        hasRequest := false, hasResponse := false } w2 with ⟨r, w3⟩
    rw [hn] at h
    cases r with
    | error err => simp at h
    | ok L =>
      simp only at h
      split at h
      · simp at h
      · split at h
        · simp at h
        · simp at h
        · rename_i s2 w4 hinit
          obtain ⟨h0, h2, hx2⟩ := initPool_ret cfg _ s2 _ w4 none hinit
          simp only [Go.ret.injEq, Prod.mk.injEq, Except.ok.injEq] at h
          obtain ⟨hs, hw⟩ := h
          subst hs
          subst hw
          exact ⟨h0, h2, hx2.of_sublist (List.Sublist.refl _) (le_refl _)⟩

/-- What holds of a filter that `CreateFilter` has returned. -/
theorem CreateFilter_ok (cfg : Tunables) (env : Env) (config : List GoValue)
    (w w1 : World) (s : script)
    (h : CreateFilter cfg env config w = .ret (.ok s, w1)) :
    0 ≤ cfg.MaxPoolSize ∧ s.OpenPool cfg.MaxPoolSize.toNat ∧ Exclusive s w1 [] := by
  unfold CreateFilter at h
  split at h
  · simp at h
  · split at h
    · simp at h
    · exact initScript_ok cfg env _ _ w w1 s h
  · simp at h

/-- No sequence of pool calls on an open pool panics or exceeds the capacity. -/
theorem runOps_keeps_open (ops : List PoolOp) : ∀ (s : script) (w : World) (c : Nat),
    s.OpenPool c → ∃ s1 w1, s.runOps w ops = .ret (s1, w1) ∧ s1.OpenPool c := by
  induction ops with
  | nil => exact fun s w c h => ⟨s, w, rfl, h⟩
  | cons op ops ih =>
    intro s w c h
    cases op with
    | get =>
      obtain ⟨s1, w1, hrun, h1⟩ := ih (s.getState w).2.1 (s.getState w).2.2 c
        (getState_keeps_open s w c h)
      exact ⟨s1, w1, by simpa [script.runOps] using hrun, h1⟩
    | put L =>
      obtain ⟨s1, w1, hput, h1⟩ := putState_keeps_open s w c L h
      obtain ⟨s2, w2, hrun, h2⟩ := ih s1 w1 c h1
      exact ⟨s2, w2, by simp only [script.runOps, hput, hrun], h2⟩

/-- A step neither panics nor breaks the invariants. -/
theorem Sys.step_inv (σ : Sys) (e : Event) (c : Nat) (h : σ.s.OpenPool c)
    (hx : Exclusive σ.s σ.w σ.inflight) :
    ∃ σ1, σ.step e = some σ1 ∧ σ1.s.OpenPool c ∧ Exclusive σ1.s σ1.w σ1.inflight := by
  cases e with
  | acquire =>
    have hop := getState_keeps_open σ.s σ.w c h
    have hex := getState_exclusive σ.s σ.w c σ.inflight h hx
    rcases hg : σ.s.getState σ.w with ⟨r, s1, w1⟩
    rw [hg] at hop hex
    cases r with
    | ok L =>
      exact ⟨{ s := s1, w := w1, inflight := σ.inflight ++ [L] },
        by simp only [Sys.step, hg], hop, hex.1 L rfl⟩
    | error err =>
      exact ⟨{ s := s1, w := w1, inflight := σ.inflight },
        by simp only [Sys.step, hg], hop, hex.2 (fun L hL => by simp at hL)⟩
  | release i =>
    cases hi : σ.inflight.get? i with
    | none => exact ⟨σ, by simp only [Sys.step, hi], h, hx⟩
    | some L =>
      obtain ⟨s1, w1, hput, h1, hx1⟩ := putState_exclusive σ.s σ.w c σ.inflight i L h hx hi
      exact ⟨{ s := s1, w := w1, inflight := σ.inflight.eraseIdx i },
        by simp only [Sys.step, hi, hput], h1, hx1⟩

/-- A run neither panics nor breaks the invariants. -/
theorem Sys.run_inv (events : List Event) : ∀ (σ : Sys) (c : Nat), σ.s.OpenPool c →
    Exclusive σ.s σ.w σ.inflight →
    ∃ σ1, σ.run events = some σ1 ∧ σ1.s.OpenPool c ∧ Exclusive σ1.s σ1.w σ1.inflight := by
  induction events with
  | nil => exact fun σ c h hx => ⟨σ, rfl, h, hx⟩
  | cons e es ih =>
    intro σ c h hx
    obtain ⟨σ1, hstep, h1, hx1⟩ := Sys.step_inv σ e c h hx
    obtain ⟨σ2, hrun, h2, hx2⟩ := ih σ1 c h1 hx1
    exact ⟨σ2, by simp only [Sys.run, hstep, hrun], h2, hx2⟩

/-- The parameter loop fails as soon as an entry is not a string. -/
theorem collectParams_none (rest : List GoValue) : ∀ (params : List String),
    (∃ p ∈ rest, ∀ ps, p ≠ GoValue.string ps) → collectParams params rest = none := by
  induction rest with
  | nil => intro params h; simp at h
  | cons v rest ih =>
    intro params h
    cases v with
    | string ps =>
      rw [collectParams]
      refine ih _ ?_
      obtain ⟨p, hp, hne⟩ := h
      rcases List.mem_cons.1 hp with hp | hp
      · exact absurd hp (hne ps)
      · exact ⟨p, hp, hne⟩
    | _ => rfl

/-! ### What `initScript` builds -/

/-- The method `putState` changes nothing of the filter but its pool. -/
theorem putState_fields (s s1 : script) (w w1 : World) (L : LState)
    (h : s.putState w L = .ret (s1, w1)) :
    s1.proto = s.proto ∧ s1.hasRequest = s.hasRequest ∧ s1.hasResponse = s.hasResponse := by
  unfold script.putState at h
  split at h
  · simp only [Go.ret.injEq, Prod.mk.injEq] at h
    rw [← h.1]
    exact ⟨rfl, rfl, rfl⟩
  · split at h
    · simp at h
    · simp only [Go.ret.injEq, Prod.mk.injEq] at h
      rw [← h.1]
      exact ⟨rfl, rfl, rfl⟩
    · simp only [Go.ret.injEq, Prod.mk.injEq] at h
      rw [← h.1]
      exact ⟨rfl, rfl, rfl⟩

/-- The seeding loop changes nothing of the filter but its pool. -/
theorem seedPool_fields (n : Nat) : ∀ (s s1 : script) (w w1 : World) (e : Option Error),
    s.seedPool w n = .ret (e, s1, w1) →
    s1.proto = s.proto ∧ s1.hasRequest = s.hasRequest ∧ s1.hasResponse = s.hasResponse := by
  induction n with
  | zero =>
    intro s s1 w w1 e h
    simp only [script.seedPool, Go.ret.injEq, Prod.mk.injEq] at h
    rw [← h.2.1]
    exact ⟨rfl, rfl, rfl⟩
  | succ n ih =>
    intro s s1 w w1 e h
    rw [script.seedPool] at h
    rcases hr : s.newState w with ⟨r, w2⟩
    rw [hr] at h
    cases r with
    | error err =>
      simp only [Go.ret.injEq, Prod.mk.injEq] at h
      rw [← h.2.1]
      exact ⟨rfl, rfl, rfl⟩
    | ok L =>
      simp only at h
      rcases hput : s.putState w2 L with ⟨s3, w3⟩ | msg
      · rw [hput] at h
        obtain ⟨h1, h2, h3⟩ := putState_fields s s3 w2 w3 L hput
        obtain ⟨h4, h5, h6⟩ := ih s3 s1 w3 w1 e h
        exact ⟨h4.trans h1, h5.trans h2, h6.trans h3⟩
      · rw [hput] at h
        simp at h

/-- A seeding loop of `n` rounds that ends without error on an open pool with `k` of `c`
places taken leaves `min(k + n, c)` places taken. -/
theorem seedPool_length (n : Nat) : ∀ (s s1 : script) (w w1 : World) (ch : Chan),
    s.pool = some ch → ch.closed = false → ch.buf.length ≤ ch.cap →
    s.seedPool w n = .ret (none, s1, w1) →
    s1.stored.length = min (ch.buf.length + n) ch.cap := by
  induction n with
  | zero =>
    intro s s1 w w1 ch hp ho hlen h
    simp only [script.seedPool, Go.ret.injEq, Prod.mk.injEq] at h
    rw [← h.2.1]
    simp only [script.stored, hp, Nat.add_zero]
    omega
  | succ n ih =>
    intro s s1 w w1 ch hp ho hlen h
    rw [script.seedPool] at h
    rcases hr : s.newState w with ⟨r, w2⟩
    rw [hr] at h
    cases r with
    | error err => simp at h
    | ok L =>
      simp only at h
      by_cases hk : ch.buf.length < ch.cap
      · rw [putState_of_room s w2 ch L hp ho hk] at h
        have := ih _ s1 w2 w1 { ch with buf := ch.buf ++ [L] } rfl ho
          (by simp only [List.length_append, List.length_singleton]; omega) h
        rw [this]
        simp only [List.length_append, List.length_singleton]
        omega
      · rw [putState_of_full s w2 ch L hp ho hk] at h
        have := ih s s1 (w2.close L) w1 ch hp ho hlen h
        rw [this]
        omega

/-- What a successful `initScript` has gone through: the source compiled, the probe
interpreter `L` loaded the chunk, a hook was found, and the pool was made and seeded. -/
theorem initScript_inv (cfg : Tunables) (env : Env) (source : String)
    (routeParams : List String) (w w5 : World) (s : script)
    (h : initScript cfg env source routeParams w = .ret (.ok s, w5)) :
    ∃ proto w1 L w2 w3, compileSource env source w = (.ok proto, w1) ∧
      script.newState
        { source := source, routeParams := routeParams, pool := none, proto := proto,
          hasRequest := false, hasResponse := false } w1 = (.ok L, w2) ∧
      script.initPool cfg
        { source := source, routeParams := routeParams, pool := none, proto := proto,
          hasRequest := decide ((script.GetGlobal
            { source := source, routeParams := routeParams, pool := none, proto := proto,
              hasRequest := false, hasResponse := false } L "request").luaType = .LTFunction),
          hasResponse := decide ((script.GetGlobal
            { source := source, routeParams := routeParams, pool := none, proto := proto,
              hasRequest := false, hasResponse := false } L "response").luaType
                = .LTFunction) } w2 = .ret (none, s, w3) ∧
      ((script.GetGlobal
          { source := source, routeParams := routeParams, pool := none, proto := proto,
            hasRequest := false, hasResponse := false } L "request").luaType = .LTFunction ∨
        (script.GetGlobal
          { source := source, routeParams := routeParams, pool := none, proto := proto,
            hasRequest := false, hasResponse := false } L "response").luaType
              = .LTFunction) := by
  unfold initScript at h
  rcases hc : compileSource env source w with ⟨r, w1⟩
  rw [hc] at h
  cases r with
  | error err => simp at h
  | ok proto =>
    simp only at h
    rcases hn : script.newState
      { source := source, routeParams := routeParams, pool := none, proto := proto,
        hasRequest := false, hasResponse := false } w1 with ⟨r, w2⟩
    rw [hn] at h
    cases r with
    | error err => simp at h
    | ok L =>
      simp only at h
      split at h
      · simp at h
      · rename_i hhook
        split at h
        · simp at h
        · simp at h
        · rename_i s2 w3 hinit
          simp only [Go.ret.injEq, Prod.mk.injEq, Except.ok.injEq] at h
          obtain ⟨hs, -⟩ := h
          subst hs
          refine ⟨proto, w1, L, w2, w3, rfl, hn, hinit, ?_⟩
          simp only [Bool.and_eq_true, Bool.not_eq_true', decide_eq_false_iff_not, not_and,
            not_not] at hhook
          by_cases hreq : (script.GetGlobal
            { source := source, routeParams := routeParams, pool := none, proto := proto,
              hasRequest := false, hasResponse := false } L "request").luaType = .LTFunction
          · exact Or.inl hreq
          · exact Or.inr (hhook hreq)

/-! ### Every run of `initScript` leaves a record -/

/-- The method `newState` only adds to the record of calls. -/
theorem newState_calls (s : script) (w : World) :
    w.calls.length ≤ (s.newState w).2.calls.length := by
  simp only [script.newState]
  split <;> simp [World.close, World.record]

/-- The method `putState` only adds to the record of calls. -/
theorem putState_calls (s s1 : script) (w w1 : World) (L : LState)
    (h : s.putState w L = .ret (s1, w1)) : w.calls.length ≤ w1.calls.length := by
  unfold script.putState at h
  split at h
  · simp only [Go.ret.injEq, Prod.mk.injEq] at h
    rw [← h.2]
    simp [World.close, World.record]
  · split at h
    · simp at h
    · simp only [Go.ret.injEq, Prod.mk.injEq] at h
      rw [← h.2]
    · simp only [Go.ret.injEq, Prod.mk.injEq] at h
      rw [← h.2]
      simp [World.close, World.record]

/-- The seeding loop only adds to the record of calls. -/
theorem seedPool_calls (n : Nat) : ∀ (s s1 : script) (w w1 : World) (e : Option Error),
    s.seedPool w n = .ret (e, s1, w1) → w.calls.length ≤ w1.calls.length := by
  induction n with
  | zero =>
    intro s s1 w w1 e h
    simp only [script.seedPool, Go.ret.injEq, Prod.mk.injEq] at h
    rw [← h.2.2]
  | succ n ih =>
    intro s s1 w w1 e h
    have hn := newState_calls s w
    rw [script.seedPool] at h
    rcases hr : s.newState w with ⟨r, w2⟩
    rw [hr] at h hn
    cases r with
    | error err =>
      simp only [Go.ret.injEq, Prod.mk.injEq] at h
      rw [← h.2.2]
      exact hn
    | ok L =>
      simp only at h
      rcases hput : s.putState w2 L with ⟨s3, w3⟩ | msg
      · rw [hput] at h
        exact le_trans hn (le_trans (putState_calls s s3 w2 w3 L hput) (ih s3 s1 w3 w1 e h))
      · rw [hput] at h
        simp at h

/-- The compile part records at least one call: `os.Open` or the parser. -/
theorem compileSource_calls (env : Env) (source : String) (w : World) :
    w.calls.length < (compileSource env source w).2.calls.length := by
  have hopen : w.calls.length ≤ (openSource env source w).2.calls.length ∧
      ((openSource env source w).1.isOk = false →
        w.calls.length < (openSource env source w).2.calls.length) := by
    simp only [openSource]
    split
    · split <;> simp [World.record, Except.isOk, Except.toBool]
    · simp [Except.isOk, Except.toBool]
  simp only [compileSource]
  rcases ho : openSource env source w with ⟨r, w1⟩
  rw [ho] at hopen
  cases r with
  | error err => exact hopen.2 rfl
  | ok p =>
    have h1 : w.calls.length ≤ w1.calls.length := hopen.1
    simp only
    split <;> [skip; split] <;> simp [World.record] <;> omega

/-- A run of `initScript` that returns has recorded at least one call. -/
theorem initScript_calls (cfg : Tunables) (env : Env) (source : String)
    (routeParams : List String) (w w1 : World) (r : Except Error script)
    (h : initScript cfg env source routeParams w = .ret (r, w1)) :
    w.calls.length < w1.calls.length := by
  have hc := compileSource_calls env source w
  unfold initScript at h
  rcases hcs : compileSource env source w with ⟨rc, w2⟩
  rw [hcs] at h hc
  cases rc with
  | error err =>
    simp only [Go.ret.injEq, Prod.mk.injEq] at h
    rw [← h.2]
    exact hc
  | ok proto =>
    simp only at h
    have hn := newState_calls
      { source := source, routeParams := routeParams, pool := none, proto := proto,
        hasRequest := false, hasResponse := false } w2
    rcases hns : script.newState
      { source := source, routeParams := routeParams, pool := none, proto := proto,
        hasRequest := false, hasResponse := false } w2 with ⟨rn, w3⟩
    rw [hns] at h hn
    have h3 : w.calls.length < w3.calls.length := lt_of_lt_of_le hc hn
    cases rn with
    | error err =>
      simp only [Go.ret.injEq, Prod.mk.injEq] at h
      rw [← h.2]
      exact h3
    | ok L =>
      simp only at h
      split at h
      · simp only [Go.ret.injEq, Prod.mk.injEq] at h
        rw [← h.2]
        simp only [World.close, World.record, List.length_append, List.length_singleton]
        omega
      · split at h
        · simp at h
        · rename_i err s2 w4 hinit
          simp only [script.initPool] at hinit
          split at hinit
          · simp at hinit
          · have := seedPool_calls _ _ _ _ _ _ hinit
            simp only [Go.ret.injEq, Prod.mk.injEq] at h
            rw [← h.2]
            simp only [World.close, World.record, List.length_append, List.length_singleton]
            omega
        · rename_i s2 w4 hinit
          simp only [script.initPool] at hinit
          split at hinit
          · simp at hinit
          · have := seedPool_calls _ _ _ _ _ _ hinit
            simp only [Go.ret.injEq, Prod.mk.injEq] at h
            rw [← h.2]
            simp only [World.close, World.record, List.length_append, List.length_singleton]
            omega

/-! ## Acquire and release on one pool state -/

/-- C6: on an open pool holding `k` instances with capacity `c`, `putState(L)` with `k < c`
appends `L` behind the stored instances and closes nothing (the world is unchanged); with
`k = c` it leaves the pool as it was and closes `L`. -/
theorem putState_open_pool (s : script) (w : World) (ch : Chan) (L : LState)
    (hp : s.pool = some ch) (ho : ch.closed = false) :
    (ch.buf.length < ch.cap →
      s.putState w L = .ret ({ s with pool := some { ch with buf := ch.buf ++ [L] } }, w)) ∧
    (ch.buf.length = ch.cap → s.putState w L = .ret (s, w.close L)) :=
  ⟨fun hk => putState_of_room s w ch L hp ho hk,
   fun hk => putState_of_full s w ch L hp ho (by omega)⟩

/-- C6 on a pool of capacity 2: with one stored instance the released one is queued, with
two it is closed. -/
theorem putState_open_pool_witness :
    (requestScript (some ⟨2, [4], false⟩)).putState ⟨5, []⟩ 3
        = .ret (requestScript (some ⟨2, [4, 3], false⟩), ⟨5, []⟩) ∧
    (requestScript (some ⟨2, [4, 1], false⟩)).putState ⟨5, []⟩ 3
        = .ret (requestScript (some ⟨2, [4, 1], false⟩), ⟨5, [.close 3]⟩) :=
  ⟨(putState_open_pool (requestScript (some ⟨2, [4], false⟩)) ⟨5, []⟩ ⟨2, [4], false⟩ 3
      rfl rfl).1 (by decide),
   (putState_open_pool (requestScript (some ⟨2, [4, 1], false⟩)) ⟨5, []⟩ ⟨2, [4, 1], false⟩ 3
      rfl rfl).2 (by decide)⟩

/-- C5, as amended: on an open pool that stores an instance, `getState` returns the one
stored longest, removes exactly it and leaves the world untouched (no instance is made); on
an open empty pool it returns what `newState` returns and the pool stays empty; and it
returns an error exactly in the second case when `newState` fails, with that error. -/
theorem getState_open_pool (s : script) (w : World) (ch : Chan)
    (hp : s.pool = some ch) (ho : ch.closed = false) :
    (∀ L rest, ch.buf = L :: rest →
      s.getState w = (.ok L, { s with pool := some { ch with buf := rest } }, w)) ∧
    (ch.buf = [] → s.getState w = ((s.newState w).1, s, (s.newState w).2)) ∧
    (∀ err, (s.getState w).1 = .error err ↔ ch.buf = [] ∧ (s.newState w).1 = .error err) := by
  refine ⟨fun L rest hb => getState_of_cons s w ch L rest hp hb,
    fun hb => getState_of_open_empty s w ch hp ho hb, fun err => ?_⟩
  cases hb : ch.buf with
  | nil => simp [getState_of_open_empty s w ch hp ho hb]
  | cons L rest => simp [getState_of_cons s w ch L rest hp hb]

/-- C5 on a pool of capacity 2: the oldest of two stored instances is handed out; from the
empty pool interpreter 5 is made. -/
theorem getState_open_pool_witness :
    (requestScript (some ⟨2, [4, 1], false⟩)).getState ⟨5, []⟩
        = (.ok 4, requestScript (some ⟨2, [1], false⟩), ⟨5, []⟩) ∧
    (requestScript (some ⟨2, [], false⟩)).getState ⟨5, []⟩
        = (.ok 5, requestScript (some ⟨2, [], false⟩), ⟨6, []⟩) :=
  ⟨(getState_open_pool (requestScript (some ⟨2, [4, 1], false⟩)) ⟨5, []⟩ ⟨2, [4, 1], false⟩
      rfl rfl).1 4 [1] rfl,
   (getState_open_pool (requestScript (some ⟨2, [], false⟩)) ⟨5, []⟩ ⟨2, [], false⟩
      rfl rfl).2.1 rfl⟩

/-- C5, the claim as stated fails: `CreateFilter` returns a filter whose pool is an open
channel of capacity 10 with three instances; three `getState` calls take them and leave the
channel open and empty; the chunk does not load in the next interpreter, and `getState`
returns the load error although the pool is not closed. -/
theorem getState_error_on_open_pool :
    CreateFilter {} failingEnv [.string "function request(ctx, params) end"] ⟨0, []⟩
      = .ret (.ok (failingScript (some ⟨10, [1, 2, 3], false⟩)),
          ⟨4, [.parse "<script>", .compile "<script>", .close 0]⟩) ∧
    (failingScript (some ⟨10, [1, 2, 3], false⟩)).runOps
        ⟨4, [.parse "<script>", .compile "<script>", .close 0]⟩ [.get, .get, .get]
      = .ret (failingScript (some ⟨10, [], false⟩),
          ⟨4, [.parse "<script>", .compile "<script>", .close 0]⟩) ∧
    (failingScript (some ⟨10, [], false⟩)).getState
        ⟨4, [.parse "<script>", .compile "<script>", .close 0]⟩
      = (.error (.lib "attempt to call a nil value"), failingScript (some ⟨10, [], false⟩),
          ⟨5, [.parse "<script>", .compile "<script>", .close 0, .close 4]⟩) :=
  ⟨rfl, rfl, rfl⟩

/-- The two closed-pool branches on pool states of any filter.  On the nil channel, which
`putState` treats as closed (it closes `L` and stores nothing), `getState` goes to
`newState`; on a closed and drained channel, on which `getState` returns "pool closed" and
makes no instance, `putState` panics. -/
theorem closed_pool_disagreement (s : script) (w : World) (L : LState) (cap : Nat) :
    ({ s with pool := none }).putState w L = .ret ({ s with pool := none }, w.close L) ∧
    ({ s with pool := none }).getState w
      = ((s.newState w).1, { s with pool := none }, (s.newState w).2) ∧
    ({ s with pool := some ⟨cap, [], true⟩ }).getState w
      = (.error (.new "pool closed"), { s with pool := some ⟨cap, [], true⟩ }, w) ∧
    ({ s with pool := some ⟨cap, [], true⟩ }).putState w L
      = .panic "send on closed channel" ∧
    (requestScript none).getState ⟨5, []⟩ = (.ok 5, requestScript none, ⟨6, []⟩) :=
  ⟨rfl, rfl, rfl, rfl, rfl⟩

/-- C1: start from a filter that `CreateFilter` has returned, with no invocation in flight,
and let invocations acquire (their `getState`) and release (their deferred `putState` of
the instance they hold) in any order.  No step panics, and in the state reached no two
invocations in flight hold the same instance and no instance held by an invocation is
stored in the pool. -/
theorem inflight_instances_exclusive (cfg : Tunables) (env : Env) (config : List GoValue)
    (w w1 : World) (s : script) (events : List Event)
    (hb : CreateFilter cfg env config w = .ret (.ok s, w1)) :
    ∃ σ, Sys.run { s := s, w := w1, inflight := [] } events = some σ ∧
      (∀ i j L, σ.inflight.get? i = some L → σ.inflight.get? j = some L → i = j) ∧
      (∀ L, L ∈ σ.inflight → L ∉ σ.s.stored) := by
  obtain ⟨-, h, hx⟩ := CreateFilter_ok cfg env config w w1 s hb
  obtain ⟨σ, hrun, -, hx1⟩ := Sys.run_inv events { s := s, w := w1, inflight := [] } _ h hx
  obtain ⟨hnd, -, hdis⟩ := List.nodup_append.1 hx1.1
  refine ⟨σ, hrun, fun i j L hi hj => ?_, fun L hL hs => hdis hL hs⟩
  rw [List.get?_eq_some] at hi hj
  obtain ⟨hi1, hi2⟩ := hi
  obtain ⟨hj1, hj2⟩ := hj
  have := (List.Nodup.get_inj_iff hnd (i := ⟨i, hi1⟩) (j := ⟨j, hj1⟩)).1 (by rw [hi2, hj2])
  simpa using this

/-- C1 on the filter built with the default tunables, under four acquires, a release and
another acquire. -/
theorem inflight_instances_exclusive_witness :
    CreateFilter {} requestEnv [.string "function request(ctx, params) end"] ⟨0, []⟩
      = .ret (.ok (requestScript (some ⟨10, [1, 2, 3], false⟩)),
          ⟨4, [.parse "<script>", .compile "<script>", .close 0]⟩) ∧
    ∃ σ, Sys.run
        { s := requestScript (some ⟨10, [1, 2, 3], false⟩),
          w := ⟨4, [.parse "<script>", .compile "<script>", .close 0]⟩, inflight := [] }
        [.acquire, .acquire, .acquire, .acquire, .release 1, .acquire] = some σ ∧
      (∀ i j L, σ.inflight.get? i = some L → σ.inflight.get? j = some L → i = j) ∧
      (∀ L, L ∈ σ.inflight → L ∉ σ.s.stored) :=
  ⟨rfl, inflight_instances_exclusive {} requestEnv
    [.string "function request(ctx, params) end"] ⟨0, []⟩ _ _ _ rfl⟩

/-- C2: for a filter that `CreateFilter` has returned and any sequence of `getState` and
`putState` calls on it, no call panics, the pool afterwards is a channel of capacity
`MaxPoolSize` that stores at most `MaxPoolSize` instances, and when it stores exactly
`MaxPoolSize` a `putState(L)` closes `L` and leaves the pool as it is. -/
theorem pool_occupancy_bounded (cfg : Tunables) (env : Env) (config : List GoValue)
    (w w1 : World) (s : script) (ops : List PoolOp)
    (hb : CreateFilter cfg env config w = .ret (.ok s, w1)) :
    ∃ s2 w2 ch, s.runOps w1 ops = .ret (s2, w2) ∧ s2.pool = some ch ∧
      (ch.cap : Int) = cfg.MaxPoolSize ∧ (ch.buf.length : Int) ≤ cfg.MaxPoolSize ∧
      ((ch.buf.length : Int) = cfg.MaxPoolSize →
        ∀ L, s2.putState w2 L = .ret (s2, w2.close L)) := by
  obtain ⟨h0, h, -⟩ := CreateFilter_ok cfg env config w w1 s hb
  obtain ⟨s2, w2, hrun, ch, hp, ho, hcap, hlen⟩ := runOps_keeps_open ops s w1 _ h
  refine ⟨s2, w2, ch, hrun, hp, by omega, by omega, fun hfull L => ?_⟩
  exact putState_of_full s2 w2 ch L hp ho (by omega)

/-- C2 on a filter built with `InitialPoolSize = 3` and `MaxPoolSize = 4`, under releases
beyond the capacity. -/
theorem pool_occupancy_bounded_witness :
    CreateFilter ⟨3, 4⟩ requestEnv [.string "function request(ctx, params) end"] ⟨0, []⟩
      = .ret (.ok (requestScript (some ⟨4, [1, 2, 3], false⟩)),
          ⟨4, [.parse "<script>", .compile "<script>", .close 0]⟩) ∧
    ∃ s2 w2 ch, (requestScript (some ⟨4, [1, 2, 3], false⟩)).runOps
        ⟨4, [.parse "<script>", .compile "<script>", .close 0]⟩
        [.put 7, .put 8, .get, .put 9, .put 11] = .ret (s2, w2) ∧ s2.pool = some ch ∧
      (ch.cap : Int) = 4 ∧ (ch.buf.length : Int) ≤ 4 ∧
      ((ch.buf.length : Int) = 4 → ∀ L, s2.putState w2 L = .ret (s2, w2.close L)) :=
  ⟨rfl, pool_occupancy_bounded ⟨3, 4⟩ requestEnv
    [.string "function request(ctx, params) end"] ⟨0, []⟩ _ _ _ rfl⟩

/-- C3: when the configuration list is empty or has an entry that is not a string (the
first or a later one), `CreateFilter` returns `ErrInvalidFilterParameters` and no filter,
and the world is as before: no file was opened, nothing parsed or compiled, no interpreter
made, whatever the environment.  A run of `initScript` never leaves the world as it was
(it records a call of `os.Open` or of the parser), so `initScript` has not run. -/
theorem CreateFilter_invalid_parameters (cfg : Tunables) (env : Env)
    (config : List GoValue) (w : World)
    (h : config = [] ∨ ∃ v ∈ config, ∀ ps, v ≠ GoValue.string ps) :
    CreateFilter cfg env config w = .ret (.error .ErrInvalidFilterParameters, w) ∧
    ∀ source routeParams r w1,
      initScript cfg env source routeParams w = .ret (r, w1) → w1 ≠ w := by
  refine ⟨?_, fun source routeParams r w1 hinit hw => ?_⟩
  swap
  · have := initScript_calls cfg env source routeParams w w1 r hinit
    rw [hw] at this
    exact lt_irrefl _ this
  rcases h with h | ⟨v, hv, hne⟩
  · subst h
    rfl
  · cases config with
    | nil => simp at hv
    | cons v0 rest =>
      cases v0 with
      | string src =>
        have hrest : ∃ p ∈ rest, ∀ ps, p ≠ GoValue.string ps := by
          rcases List.mem_cons.1 hv with hv | hv
          · exact absurd hv (hne src)
          · exact ⟨v, hv, hne⟩
        simp only [CreateFilter, collectParams_none rest [] hrest]
      | _ => rfl

/-- C3 on a configuration whose second entry is an int. -/
theorem CreateFilter_invalid_parameters_witness :
    CreateFilter {} requestEnv [.string "function request(ctx, params) end", .int 3]
      ⟨0, []⟩ = .ret (.error .ErrInvalidFilterParameters, ⟨0, []⟩) :=
  (CreateFilter_invalid_parameters {} requestEnv
    [.string "function request(ctx, params) end", .int 3] ⟨0, []⟩
    (Or.inr ⟨.int 3, by simp, fun ps h => by cases h⟩)).1

/-! ## The state bag bindings -/

/-- C7: for a string or number value `v`, `state_bag` set returns no error value, a
`state_bag` get of the same key afterwards returns exactly `v` and changes nothing, and the
entry of every other key of the bag, like the request, is as before the set. -/
theorem stateBag_set_then_get (lib : Lib) (f : FilterContext) (key v : LValue)
    (hv : v.luaType = .LTString ∨ v.luaType = .LTNumber) :
    (setStateBag lib f key v).2 = [] ∧
    getStateBag lib (setStateBag lib f key v).1 key = ((setStateBag lib f key v).1, [v]) ∧
    (∀ k, k ≠ LVAsString lib key →
      (setStateBag lib f key v).1.StateBag.entries k = f.StateBag.entries k) ∧
    (setStateBag lib f key v).1.Request = f.Request := by
  cases v with
  | LString str =>
    refine ⟨rfl, ?_, fun k hk => ?_, rfl⟩
    · simp [setStateBag, getStateBag, StateBag.set]
    · simp [setStateBag, StateBag.set, hk]
  | LNumber n =>
    refine ⟨rfl, ?_, fun k hk => ?_, rfl⟩
    · simp [setStateBag, getStateBag, StateBag.set]
    · simp [setStateBag, StateBag.set, hk]
  | _ => simp [LValue.luaType] at hv

/-- C7 on the key `user` and the value `"bob"`. -/
theorem stateBag_set_then_get_witness :
    (setStateBag sampleLib sampleContext (.LString "user") (.LString "bob")).2 = [] ∧
    getStateBag sampleLib
        (setStateBag sampleLib sampleContext (.LString "user") (.LString "bob")).1
        (.LString "user")
      = ((setStateBag sampleLib sampleContext (.LString "user") (.LString "bob")).1,
          [.LString "bob"]) ∧
    (∀ k, k ≠ LVAsString sampleLib (.LString "user") →
      (setStateBag sampleLib sampleContext (.LString "user")
        (.LString "bob")).1.StateBag.entries k = sampleContext.StateBag.entries k) ∧
    (setStateBag sampleLib sampleContext (.LString "user") (.LString "bob")).1.Request
      = sampleContext.Request :=
  stateBag_set_then_get sampleLib sampleContext (.LString "user") (.LString "bob")
    (Or.inl rfl)

/-- C8, as amended: for a value that is neither a string nor a number, the Go function
`setStateBag` returns normally with the one value "unsupported type for state bag" and
leaves the context, so the state bag, exactly as it was; it is the `__newindex` of
`state_bag`, and the script statement that sets the key returns without failing and
leaves the context exactly as it was. -/
theorem stateBag_set_unsupported (lib : Lib) (f : FilterContext) (key v : LValue)
    (hv : v.luaType ≠ .LTString ∧ v.luaType ≠ .LTNumber) :
    setStateBag lib f key v = (f, [.LString "unsupported type for state bag"]) ∧
    Proxy.state_bag.metatable.newindex = some .setStateBag ∧
    ∃ vals, Proxy.assignStatement lib f .state_bag key v = .ret (f, vals) := by
  have hset : setStateBag lib f key v = (f, [.LString "unsupported type for state bag"]) := by
    cases v with
    | LString str => simp [LValue.luaType] at hv
    | LNumber n => simp [LValue.luaType] at hv
    | _ => rfl
  refine ⟨hset, rfl, [], ?_⟩
  simp only [Proxy.assignStatement, Proxy.assign, Proxy.metatable, callNewindex, hset]

/-- C8, as amended, on a table value. -/
theorem stateBag_set_unsupported_witness :
    setStateBag sampleLib sampleContext (.LString "user") (.LTable 1 [(.LString "a", .LNil)])
      = (sampleContext, [.LString "unsupported type for state bag"]) ∧
    Proxy.state_bag.metatable.newindex = some .setStateBag ∧
    ∃ vals, Proxy.assignStatement sampleLib sampleContext .state_bag (.LString "user")
      (.LTable 1 [(.LString "a", .LNil)]) = .ret (sampleContext, vals) :=
  stateBag_set_unsupported sampleLib sampleContext (.LString "user")
    (.LTable 1 [(.LString "a", .LNil)]) ⟨by simp [LValue.luaType], by simp [LValue.luaType]⟩

/-- C8, the claim as stated fails: `setStateBag` is installed as `__newindex` of
`state_bag` and returns the error string for the value `true`, but the script statement
`ctx.state_bag["user"] = true` delivers no value to the script: the string is dropped. -/
theorem stateBag_set_error_not_delivered :
    Proxy.state_bag.metatable
      = { index := some .getStateBag, newindex := some .setStateBag } ∧
    setStateBag sampleLib sampleContext (.LString "user") (.LBool true)
      = (sampleContext, [.LString "unsupported type for state bag"]) ∧
    Proxy.assignStatement sampleLib sampleContext .state_bag (.LString "user") (.LBool true)
      = .ret (sampleContext, []) ∧
    ([] : List LValue) ≠ [.LString "unsupported type for state bag"] :=
  ⟨rfl, rfl, rfl, by simp⟩

/-- C9: `state_bag` get returns normally with one value and the context unchanged.  The
value is nil when the key is absent, the string for a stored string, a number for a stored
int, int64 or float64 (the float64 itself, the integer converted), and nil for a stored
value of any other type. -/
theorem stateBag_get (lib : Lib) (f : FilterContext) (key : LValue) :
    (getStateBag lib f key).1 = f ∧
    (f.StateBag.entries (LVAsString lib key) = none →
      (getStateBag lib f key).2 = [.LNil]) ∧
    (∀ str, f.StateBag.entries (LVAsString lib key) = some (.string str) →
      (getStateBag lib f key).2 = [.LString str]) ∧
    (∀ i, f.StateBag.entries (LVAsString lib key) = some (.int i) →
      (getStateBag lib f key).2 = [.LNumber (Float.ofInt i)]) ∧
    (∀ i, f.StateBag.entries (LVAsString lib key) = some (.int64 i) →
      (getStateBag lib f key).2 = [.LNumber (Float.ofInt i)]) ∧
    (∀ x, f.StateBag.entries (LVAsString lib key) = some (.float64 x) →
      (getStateBag lib f key).2 = [.LNumber x]) ∧
    (∀ v, f.StateBag.entries (LVAsString lib key) = some v →
      (∀ str, v ≠ .string str) → (∀ i, v ≠ .int i) → (∀ i, v ≠ .int64 i) →
      (∀ x, v ≠ .float64 x) → (getStateBag lib f key).2 = [.LNil]) := by
  refine ⟨?_, fun h => ?_, fun str h => ?_, fun i h => ?_, fun i h => ?_, fun x h => ?_,
    fun v h h1 h2 h3 h4 => ?_⟩
  · simp only [getStateBag]
    split <;> rfl
  · simp [getStateBag, h]
  · simp [getStateBag, h]
  · simp [getStateBag, h]
  · simp [getStateBag, h]
  · simp [getStateBag, h]
  · cases v with
    | string str => exact absurd rfl (h1 str)
    | int i => exact absurd rfl (h2 i)
    | int64 i => exact absurd rfl (h3 i)
    | float64 x => exact absurd rfl (h4 x)
    | _ => simp [getStateBag, h]

/-- C9 on a stored string, a stored int, a stored `time.Time` and an absent key. -/
theorem stateBag_get_witness :
    (getStateBag sampleLib sampleContext (.LString "user")).2 = [.LString "alice"] ∧
    (getStateBag sampleLib sampleContext (.LString "tries")).2
      = [.LNumber (Float.ofInt 3)] ∧
    (getStateBag sampleLib sampleContext (.LString "since")).2 = [.LNil] ∧
    (getStateBag sampleLib sampleContext (.LString "nobody")).2 = [.LNil] :=
  ⟨(stateBag_get sampleLib sampleContext (.LString "user")).2.2.1 "alice" rfl,
   (stateBag_get sampleLib sampleContext (.LString "tries")).2.2.2.1 3 rfl,
   (stateBag_get sampleLib sampleContext (.LString "since")).2.2.2.2.2.2
      (.other "time.Time") rfl (fun _ h => by cases h) (fun _ h => by cases h)
      (fun _ h => by cases h) (fun _ h => by cases h),
   (stateBag_get sampleLib sampleContext (.LString "nobody")).2.1 rfl⟩

/-! ## The request header bindings -/

/-- C10, as amended to values that are nil, a string or a number: a header set returns no
value.  When `v` is nil or the empty string the header is deleted and a get of the name
returns the empty string.  When `v` is a non-empty string or a number the header holds
exactly one value, the string form of `v`, and a get of the name returns it. -/
theorem requestHeader_set_then_get (lib : Lib) (f : FilterContext) (key v : LValue) :
    (setRequestHeader lib f key v).2 = [] ∧
    ((v = .LNil ∨ v = .LString "") →
      (setRequestHeader lib f key v).1.Request.Header.entries
          (lib.CanonicalMIMEHeaderKey (LVAsString lib key)) = none ∧
      getRequestHeader lib (setRequestHeader lib f key v).1 key
        = ((setRequestHeader lib f key v).1, [.LString ""])) ∧
    ((v.luaType = .LTString ∨ v.luaType = .LTNumber) → v ≠ .LString "" →
      (setRequestHeader lib f key v).1.Request.Header.entries
          (lib.CanonicalMIMEHeaderKey (LVAsString lib key)) = some [v.String lib] ∧
      getRequestHeader lib (setRequestHeader lib f key v).1 key
        = ((setRequestHeader lib f key v).1, [.LString (v.String lib)])) := by
  refine ⟨?_, ?_, ?_⟩
  · simp only [setRequestHeader]
    split
    · rfl
    · split <;> rfl
    · rfl
  · rintro (h | h) <;> subst h <;>
      simp [setRequestHeader, getRequestHeader, Header.Del, Header.Get]
  · intro ht hne
    cases v with
    | LString str =>
      have hstr : str ≠ "" := fun he => hne (by rw [he])
      simp [setRequestHeader, getRequestHeader, Header.Set, Header.Get, hstr,
        LValue.String]
    | LNumber n =>
      simp [setRequestHeader, getRequestHeader, Header.Set, Header.Get, LVAsString,
        LValue.String]
    | _ => simp [LValue.luaType] at ht

/-- C10, as amended, on the values `""` and `"off"`. -/
theorem requestHeader_set_then_get_witness :
    getRequestHeader sampleLib
        (setRequestHeader sampleLib sampleContext (.LString "X-Flag") (.LString "")).1
        (.LString "X-Flag")
      = ((setRequestHeader sampleLib sampleContext (.LString "X-Flag") (.LString "")).1,
          [.LString ""]) ∧
    getRequestHeader sampleLib
        (setRequestHeader sampleLib sampleContext (.LString "X-Flag") (.LString "off")).1
        (.LString "X-Flag")
      = ((setRequestHeader sampleLib sampleContext (.LString "X-Flag") (.LString "off")).1,
          [.LString "off"]) :=
  ⟨((requestHeader_set_then_get sampleLib sampleContext (.LString "X-Flag")
      (.LString "")).2.1 (Or.inr rfl)).2,
   ((requestHeader_set_then_get sampleLib sampleContext (.LString "X-Flag")
      (.LString "off")).2.2 (Or.inl rfl) (by simp)).2⟩

/-- C10, the claim as stated fails at the value `true`: the header is set, not deleted, it
holds the single empty value, and a get returns the empty string, which is not the string
form "true" of the value. -/
theorem requestHeader_set_bool_not_string_form :
    (setRequestHeader sampleLib sampleContext (.LString "X-Flag")
      (.LBool true)).1.Request.Header.entries "X-Flag" = some [""] ∧
    (getRequestHeader sampleLib
      (setRequestHeader sampleLib sampleContext (.LString "X-Flag") (.LBool true)).1
      (.LString "X-Flag")).2 = [.LString ""] ∧
    LValue.String sampleLib (.LBool true) = "true" ∧
    LValue.LString "" ≠ LValue.LString (LValue.String sampleLib (.LBool true)) := by
  refine ⟨by simp [setRequestHeader, Header.Set, sampleLib, LVAsString],
    by simp [setRequestHeader, getRequestHeader, Header.Set, Header.Get, sampleLib,
      LVAsString], rfl, ?_⟩
  simp [LValue.String]

/-! ## The response object and its header table -/

/-- C11, as amended: the `header` table of `response` is reached from the context through
`getContextValue` and `getResponseValue` and has `setResponseHeader` as `__newindex`; only
the `response` table itself has no `__newindex`.  So an assignment to a field of
`response` leaves the filter context as it is, while, for a context whose response has a
header map, an assignment to a field of `response.header` deletes the header when the
value is nil or the empty string and otherwise sets it to the one value `ToString` gives. -/
theorem response_header_writable (lib : Lib) (f : FilterContext) (r : Response) (h : Header)
    (key v : LValue) (hr : f.Response = some r) (hh : r.Header = some h) :
    getContextValue "response" = .proxy .response ∧
    getResponseValue "header" = .proxy .responseHeader ∧
    Proxy.responseHeader.metatable.newindex = some .setResponseHeader ∧
    Proxy.response.metatable.newindex = none ∧
    Proxy.assign lib f .response key v = .ret (f, []) ∧
    ((v = .LNil ∨ v = .LString "") →
      Proxy.assign lib f .responseHeader key v
        = .ret ({ f with Response := some { r with
            Header := some (h.Del lib (LVAsString lib key)) } }, [])) ∧
    (¬ (v = .LNil ∨ v = .LString "") →
      Proxy.assign lib f .responseHeader key v
        = .ret ({ f with Response := some { r with
            Header := some (h.Set lib (LVAsString lib key) (LVAsString lib v)) } }, [])) := by
  refine ⟨rfl, rfl, rfl, rfl, rfl, ?_, ?_⟩
  · rintro (hv | hv) <;> subst hv <;>
      simp [Proxy.assign, Proxy.metatable, callNewindex, setResponseHeader, hr, hh,
        Header.delNil]
  · intro hv
    cases v with
    | LNil => simp at hv
    | LString str =>
      have hstr : str ≠ "" := fun he => hv (Or.inr (by rw [he]))
      simp [Proxy.assign, Proxy.metatable, callNewindex, setResponseHeader, hr, hh,
        Header.setNil, hstr, LVAsString]
    | _ =>
      simp [Proxy.assign, Proxy.metatable, callNewindex, setResponseHeader, hr, hh,
        Header.setNil]

/-- C11, as amended, on the response header `X-Cache: hit` of the sample context and the
value `"miss"`. -/
theorem response_header_writable_witness :
    Proxy.assign sampleLib sampleContext .responseHeader (.LString "X-Cache") (.LString "miss")
      = .ret ({ sampleContext with
          Response := some (
            { StatusCode := 200,
              Header := some (Header.Set sampleLib
                { entries := fun k => if k = "X-Cache" then some ["hit"] else none }
                "X-Cache" "miss"),
              Body := some "ok" } : Response) }, []) :=
  (response_header_writable sampleLib sampleContext _ _ (.LString "X-Cache")
    (.LString "miss") rfl rfl).2.2.2.2.2.2 (by simp)

/-- C11, the claim as stated fails: the script statement
`ctx.response.header["X-Cache"] = "miss"` reaches `setResponseHeader`, and the response
header `X-Cache`, which was `hit`, is `miss` afterwards. -/
theorem response_header_assignment_changes_header :
    getContextValue "response" = .proxy .response ∧
    getResponseValue "header" = .proxy .responseHeader ∧
    Proxy.responseHeader.metatable.newindex = some .setResponseHeader ∧
    (sampleContext.Response.bind (fun r => r.Header)).map (fun h => h.entries "X-Cache")
      = some (some ["hit"]) ∧
    ∃ f1, Proxy.assign sampleLib sampleContext .responseHeader (.LString "X-Cache")
        (.LString "miss") = .ret (f1, []) ∧
      (f1.Response.bind (fun r => r.Header)).map (fun h => h.entries "X-Cache")
        = some (some ["miss"]) := by
  refine ⟨rfl, rfl, rfl, rfl, _, rfl, ?_⟩
  simp [sampleContext, sampleLib, Header.Set, LVAsString]

/-! ## Response synthesis -/

/-- One step of `ForEach`. -/
theorem ForEach_cons {σ : Type} (kv : LValue × LValue) (r : List (LValue × LValue))
    (cb : σ → LValue → LValue → σ) (acc : σ) :
    ForEach (kv :: r) cb acc = ForEach r cb (ForEach [kv] cb acc) := rfl

/-- On an entry with a value that is not nil `ForEach` runs the callback. -/
theorem ForEach_single {σ : Type} (k v : LValue) (cb : σ → LValue → LValue → σ) (acc : σ)
    (hv : v ≠ .LNil) : ForEach [(k, v)] cb acc = cb acc k v := by
  cases v <;> first | exact absurd rfl hv | rfl

/-- On any entry `ForEach` runs the callback or does nothing. -/
theorem ForEach_single_cases {σ : Type} (kv : LValue × LValue)
    (cb : σ → LValue → LValue → σ) (acc : σ) :
    ForEach [kv] cb acc = acc ∨ ForEach [kv] cb acc = cb acc kv.1 kv.2 := by
  obtain ⟨k, v⟩ := kv
  cases v <;> first | exact Or.inl rfl | exact Or.inr rfl

/-- A part of the state that the callback only touches under the key `K` is as before
when no entry has the key `K`. -/
theorem ForEach_keep {σ α : Type} (π : σ → α) (cb : σ → LValue → LValue → σ) (K : LValue)
    (hother : ∀ acc k v, k ≠ K → π (cb acc k v) = π acc) :
    ∀ (r : List (LValue × LValue)) (acc : σ), (∀ kv ∈ r, kv.1 ≠ K) →
      π (ForEach r cb acc) = π acc := by
  intro r
  induction r with
  | nil => intro acc _; rfl
  | cons kv r ih =>
    intro acc hK
    rw [ForEach_cons, ih _ (fun kv1 h1 => hK kv1 (List.mem_cons_of_mem _ h1))]
    rcases ForEach_single_cases kv cb acc with h | h
    · rw [h]
    · rw [h, hother acc kv.1 kv.2 (hK kv (List.mem_cons_self _ _))]

/-- A part of the state that the callback sets to `c` under the key `K` with value `v0`,
and only touches under the key `K`, is `c` after a table with pairwise different keys
that has the entry `(K, v0)`. -/
theorem ForEach_set {σ α : Type} (π : σ → α) (cb : σ → LValue → LValue → σ) (K v0 : LValue)
    (c : α) (hv0 : v0 ≠ .LNil)
    (hother : ∀ acc k v, k ≠ K → π (cb acc k v) = π acc)
    (hset : ∀ acc, π (cb acc K v0) = c) :
    ∀ (r : List (LValue × LValue)) (acc : σ), (r.map Prod.fst).Nodup → (K, v0) ∈ r →
      π (ForEach r cb acc) = c := by
  intro r
  induction r with
  | nil => intro acc _ h; simp at h
  | cons kv r ih =>
    intro acc hnd hmem
    rw [List.map_cons, List.nodup_cons] at hnd
    rw [ForEach_cons]
    rcases List.mem_cons.1 hmem with heq | hin
    · subst heq
      have hrest : ∀ kv1 ∈ r, kv1.1 ≠ K := fun kv1 h1 he =>
        hnd.1 (List.mem_map.2 ⟨kv1, h1, he⟩)
      rw [ForEach_keep π cb K hother r _ hrest, ForEach_single K v0 cb acc hv0, hset]
    · exact ih _ hnd.2 hin

/-- Only the key `status_code` touches the status code. -/
theorem serveTableWalk_StatusCode (lib : Lib) (res : Response) (k v : LValue)
    (hk : k ≠ .LString "status_code") :
    (serveTableWalk lib res k v).StatusCode = res.StatusCode := by
  cases k with
  | LString s =>
    have hs : s ≠ "status_code" := fun he => hk (by rw [he])
    simp only [serveTableWalk, hs, if_false]
    split_ifs
    · cases v <;> rfl
    · cases v <;> try rfl
      simp only
      split <;> rfl
    · rfl
  | _ => rfl

/-- Only the key `header` touches the header. -/
theorem serveTableWalk_Header (lib : Lib) (res : Response) (k v : LValue)
    (hk : k ≠ .LString "header") :
    (serveTableWalk lib res k v).Header = res.Header := by
  cases k with
  | LString s =>
    have hs : s ≠ "header" := fun he => hk (by rw [he])
    simp only [serveTableWalk, hs, if_false]
    split_ifs
    · cases v <;> rfl
    · cases v <;> try rfl
      simp only
      split <;> rfl
    · rfl
  | _ => rfl

/-- Only the key `body` touches the body. -/
theorem serveTableWalk_Body (lib : Lib) (res : Response) (k v : LValue)
    (hk : k ≠ .LString "body") :
    (serveTableWalk lib res k v).Body = res.Body := by
  cases k with
  | LString s =>
    have hs : s ≠ "body" := fun he => hk (by rw [he])
    simp only [serveTableWalk, hs, if_false]
    split_ifs
    · cases v <;> rfl
    · cases v <;> rfl
    · rfl
  | _ => rfl

/-- After the entries of a `header` table whose values are not nil, a header name has the
value of the last entry with this canonical name, or what it had before. -/
theorem ForEach_serveHeaderWalk (lib : Lib) (name : String) :
    ∀ (t : List (LValue × LValue)) (h0 : Header), (∀ kv ∈ t, kv.2 ≠ .LNil) →
      (ForEach t (serveHeaderWalk lib) h0).entries name
        = ((lastHeaderValue lib t name).orElse fun _ => h0.entries name) := by
  intro t
  induction t with
  | nil => intro h0 _; rfl
  | cons kv t ih =>
    intro h0 hv
    obtain ⟨k, v⟩ := kv
    rw [ForEach_cons, ih _ (fun kv1 h1 => hv kv1 (List.mem_cons_of_mem _ h1)),
      ForEach_single k v _ h0 (hv (k, v) (List.mem_cons_self _ _))]
    simp only [lastHeaderValue, List.reverse_cons, List.find?_append]
    cases hfind : t.reverse.find?
        (fun kv => decide (lib.CanonicalMIMEHeaderKey (kv.1.String lib) = name)) with
    | some kv1 => simp
    | none =>
      by_cases hname : lib.CanonicalMIMEHeaderKey (k.String lib) = name
      · simp [serveHeaderWalk, Header.Set, hname]
      · have hname1 : name ≠ lib.CanonicalMIMEHeaderKey (k.String lib) := fun he => hname he.symm
        simp [serveHeaderWalk, Header.Set, hname, hname1]

/-- C12: for a table argument (its keys pairwise different), `serve` hands exactly one
response to `Serve`.  When `status_code` is the number `n` its status code is `int(n)`;
when `header` is a table of string keys and string values its header map has, under every
canonical name, the single value of the entry with that name (the last one visited when
several keys share the name) and nothing under any other name; when `body` is the string
`b` its body is `b`; and when the table has no key `body` no body is set, so the body is
empty. -/
theorem serve_builds_response (lib : Lib) (f : FilterContext) (addr : Nat)
    (r : List (LValue × LValue)) (hkeys : (r.map Prod.fst).Nodup) :
    ∃ res, serveRequest lib f (.LTable addr r) = ({ f with served := f.served ++ [res] }, []) ∧
      (∀ n, (LValue.LString "status_code", LValue.LNumber n) ∈ r →
        res.StatusCode = lib.intOfNumber n) ∧
      (∀ haddr h, (LValue.LString "header", LValue.LTable haddr h) ∈ r →
        (∀ kv ∈ h, ∃ k v, kv = (LValue.LString k, LValue.LString v)) →
        ∃ H, res.Header = some H ∧ ∀ name, H.entries name = lastHeaderValue lib h name) ∧
      (∀ b, (LValue.LString "body", LValue.LString b) ∈ r → res.Body = some b) ∧
      ((∀ kv ∈ r, kv.1 ≠ LValue.LString "body") → res.Body = none ∧ res.bodyBytes = "") := by
  refine ⟨_, rfl, fun n hn => ?_, fun haddr h hh hstr => ?_, fun b hb => ?_, fun hno => ?_⟩
  · exact ForEach_set Response.StatusCode (serveTableWalk lib) _ _ _ (by simp)
      (fun acc k v hk => serveTableWalk_StatusCode lib acc k v hk) (fun acc => rfl) r _ hkeys hn
  · refine ⟨ForEach h (serveHeaderWalk lib) { entries := fun _ => none }, ?_, fun name => ?_⟩
    · exact ForEach_set Response.Header (serveTableWalk lib) _ _ _ (by simp)
        (fun acc k v hk => serveTableWalk_Header lib acc k v hk) (fun acc => rfl) r _ hkeys hh
    · rw [ForEach_serveHeaderWalk lib name h _ (fun kv hkv => by
        obtain ⟨k, v, he⟩ := hstr kv hkv
        rw [he]
        simp)]
      cases lastHeaderValue lib h name <;> rfl
  · exact ForEach_set Response.Body (serveTableWalk lib) _ _ _ (by simp)
      (fun acc k v hk => serveTableWalk_Body lib acc k v hk) (fun acc => rfl) r _ hkeys hb
  · have hbody := ForEach_keep Response.Body (serveTableWalk lib) (.LString "body")
      (fun acc k v hk => serveTableWalk_Body lib acc k v hk) r
      { StatusCode := 0, Header := none, Body := none } hno
    exact ⟨hbody, by simp only [Response.bodyBytes, hbody]; rfl⟩

/-- C12 on the tables `{status_code = 200, header = {["X-A"] = "1"}, body = "hi"}` and
`{status_code = 204}`. -/
theorem serve_builds_response_witness :
    (∃ res, serveRequest sampleLib sampleContext
        (.LTable 1 [(.LString "status_code", .LNumber 200),
          (.LString "header", .LTable 2 [(.LString "X-A", .LString "1")]),
          (.LString "body", .LString "hi")])
        = ({ sampleContext with served := sampleContext.served ++ [res] }, []) ∧
      res.StatusCode = sampleLib.intOfNumber 200 ∧
      (∃ H, res.Header = some H ∧ ∀ name, H.entries name
        = lastHeaderValue sampleLib [(.LString "X-A", .LString "1")] name) ∧
      res.Body = some "hi") ∧
    (∃ res, serveRequest sampleLib sampleContext (.LTable 1 [(.LString "status_code", .LNumber 204)])
        = ({ sampleContext with served := sampleContext.served ++ [res] }, []) ∧
      res.StatusCode = sampleLib.intOfNumber 204 ∧ res.Body = none ∧ res.bodyBytes = "") := by
  constructor
  · obtain ⟨res, hres, hstatus, hheader, hbody, -⟩ :=
      serve_builds_response sampleLib sampleContext 1
        [(.LString "status_code", .LNumber 200),
          (.LString "header", .LTable 2 [(.LString "X-A", .LString "1")]),
          (.LString "body", .LString "hi")] (by simp)
    exact ⟨res, hres, hstatus 200 (by simp),
      hheader 2 [(.LString "X-A", .LString "1")] (by simp) (by simp), hbody "hi" (by simp)⟩
  · obtain ⟨res, hres, hstatus, -, -, hnobody⟩ :=
      serve_builds_response sampleLib sampleContext 1
        [(.LString "status_code", .LNumber 204)] (by simp)
    exact ⟨res, hres, hstatus 204 (by simp), hnobody (by simp)⟩

/-- C13: for an argument that is not a table `serve` returns the one value
"invalid type, need a table" and the context is as before, so `Serve` was not called; for
a table argument it returns no value and `served` has grown by exactly one response. -/
theorem serve_argument (lib : Lib) (f : FilterContext) (t : LValue) :
    (t.luaType ≠ .LTTable →
      serveRequest lib f t = (f, [.LString "invalid type, need a table"])) ∧
    (t.luaType = .LTTable →
      ∃ res, serveRequest lib f t = ({ f with served := f.served ++ [res] }, [])) := by
  cases t with
  | LTable addr r => exact ⟨fun h => absurd rfl h, fun _ => ⟨_, rfl⟩⟩
  | _ => exact ⟨fun _ => rfl, fun h => by simp [LValue.luaType] at h⟩

/-- C13 on the string argument `"hi"` and on the empty table. -/
theorem serve_argument_witness :
    serveRequest sampleLib sampleContext (.LString "hi")
      = (sampleContext, [.LString "invalid type, need a table"]) ∧
    ∃ res, serveRequest sampleLib sampleContext (.LTable 1 [])
      = ({ sampleContext with served := sampleContext.served ++ [res] }, []) :=
  ⟨(serve_argument sampleLib sampleContext (.LString "hi")).1 (by simp [LValue.luaType]),
   (serve_argument sampleLib sampleContext (.LTable 1 [])).2 rfl⟩

/-! ## Route parameters -/

/-- Where a one-character separator is not found, the text has no such character. -/
theorem Index_char_none (c : Char) : ∀ (l : List Char), Index l [c] = none →
    l.takeWhile (fun a => a != c) = l ∧ l.dropWhile (fun a => a != c) = [] := by
  intro l
  induction l with
  | nil => intro _; exact ⟨rfl, rfl⟩
  | cons a t ih =>
    intro h
    by_cases hac : c = a
    · subst hac
      simp [Index, List.isPrefixOf] at h
    · have hne : (a != c) = true := by simpa using fun he => hac he.symm
      simp [Index, List.isPrefixOf, hac] at h
      obtain ⟨h1, h2⟩ := ih h
      exact ⟨by rw [List.takeWhile_cons, hne]; simp [h1],
        by rw [List.dropWhile_cons, hne]; simpa using h2⟩

/-- Where a one-character separator is found first, the text before it and the text after
it are what `takeWhile` and `dropWhile` give. -/
theorem Index_char_some (c : Char) : ∀ (l : List Char) (m : Nat), Index l [c] = some m →
    l.take m = l.takeWhile (fun a => a != c) ∧
    l.drop (m + 1) = (l.dropWhile (fun a => a != c)).drop 1 := by
  intro l
  induction l with
  | nil => intro m h; simp [Index, List.isPrefixOf] at h
  | cons a t ih =>
    intro m h
    by_cases hac : c = a
    · subst hac
      simp [Index, List.isPrefixOf] at h
      subst h
      simp
    · have hne : (a != c) = true := by simpa using fun he => hac he.symm
      simp [Index, List.isPrefixOf, hac] at h
      obtain ⟨m1, hm1, hm⟩ := h
      subst hm
      obtain ⟨h1, h2⟩ := ih m1 hm1
      exact ⟨by rw [List.takeWhile_cons, hne]; simp [h1],
        by rw [List.dropWhile_cons, hne]; simpa using h2⟩

/-- One route parameter is stored under its key with its value. -/
theorem setParam_eq (pt : String → Option LValue) (p : String) :
    setParam pt p = fun k => if k = paramKey p then some (.LString (paramValue p)) else pt k := by
  have hsplit : SplitN p.toList ['='] 2 =
      match Index p.toList ['='] with
      | none => [p.toList]
      | some m => [p.toList.take m, p.toList.drop (m + 1)] := by
    unfold SplitN
    cases hl : p.toList with
    | nil => simp [splitLoop, Index, List.isPrefixOf]
    | cons a t =>
      have hfuel : min 2 ((a :: t).length + 1) - 1 = 1 := by
        simp only [List.length_cons]
        omega
      rw [hfuel, splitLoop]
      cases Index (a :: t) ['='] <;> simp [splitLoop]
  unfold setParam
  rw [hsplit]
  cases hi : Index p.toList ['='] with
  | none =>
    obtain ⟨h1, h2⟩ := Index_char_none '=' p.toList hi
    simp only [String.toList] at h1 h2
    simp [RawSetString, paramKey, paramValue, h1, h2]
  | some m =>
    obtain ⟨h1, h2⟩ := Index_char_some '=' p.toList m hi
    simp only [String.toList, List.drop_one] at h1 h2
    simp [RawSetString, paramKey, paramValue, h1, h2]

/-- The parameter table, key by key: the value of the last parameter with that key. -/
theorem paramTable_find (routeParams : List String) (key : String) :
    paramTable routeParams key
      = (routeParams.reverse.find? (fun p => decide (paramKey p = key))).map
          (fun p => LValue.LString (paramValue p)) := by
  unfold paramTable
  induction routeParams using List.reverseRecOn with
  | nil => rfl
  | append_singleton ps p ih =>
    rw [List.foldl_append, List.foldl_cons, List.foldl_nil, setParam_eq, List.reverse_append,
      List.reverse_singleton, List.singleton_append, List.find?_cons]
    by_cases hk : paramKey p = key
    · simp [hk]
    · have hk1 : key ≠ paramKey p := fun he => hk he.symm
      simp [hk, hk1, ih]

/-- C14: the parameter table has a value under a key exactly when some route parameter has
that key (its text up to the first `=`, the whole text without one), and under the key of
a parameter after which no parameter with the same key follows it has that parameter's
value (the text after its first `=`, the empty string without one). -/
theorem paramTable_keys_values (routeParams : List String) :
    (∀ key, (∃ v, paramTable routeParams key = some v) ↔
      ∃ p ∈ routeParams, paramKey p = key) ∧
    (∀ pre p post, routeParams = pre ++ p :: post →
      (∀ q ∈ post, paramKey q ≠ paramKey p) →
      paramTable routeParams (paramKey p) = some (.LString (paramValue p))) := by
  constructor
  · intro key
    rw [paramTable_find]
    cases hfind : routeParams.reverse.find? (fun p => decide (paramKey p = key)) with
    | none =>
      rw [List.find?_eq_none] at hfind
      constructor
      · rintro ⟨v, hv⟩
        simp at hv
      · rintro ⟨p, hp, hk⟩
        exact absurd (by simpa using hk) (hfind p (List.mem_reverse.2 hp))
    | some p =>
      have hmem := List.mem_of_find?_eq_some hfind
      have hkey := List.find?_some hfind
      exact ⟨fun _ => ⟨p, List.mem_reverse.1 hmem, by simpa using hkey⟩, fun _ => ⟨_, rfl⟩⟩
  · intro pre p post hrp hpost
    rw [paramTable_find, hrp, List.reverse_append, List.reverse_cons, List.append_assoc,
      List.find?_append]
    have hnone : post.reverse.find? (fun q => decide (paramKey q = paramKey p)) = none := by
      rw [List.find?_eq_none]
      intro q hq
      simpa using hpost q (List.mem_reverse.1 hq)
    rw [hnone]
    simp

/-- C14 on the parameters `a=1`, `b`, `a=2=3`. -/
theorem paramTable_keys_values_witness :
    paramTable ["a=1", "b", "a=2=3"] "a" = some (.LString "2=3") ∧
    paramTable ["a=1", "b", "a=2=3"] "b" = some (.LString "") :=
  ⟨(paramTable_keys_values ["a=1", "b", "a=2=3"]).2 ["a=1", "b"] "a=2=3" [] rfl
      (fun q hq => by simp at hq),
   (paramTable_keys_values ["a=1", "b", "a=2=3"]).2 ["a=1"] "b" ["a=2=3"] rfl
      (fun q hq => by
        simp only [List.mem_singleton] at hq
        subst hq
        decide)⟩

/-! ## Hook invocation -/

/-- C15: with `hasRequest` false `Request` returns at once and the filter (so its pool),
the world (so the interpreters made and closed) and the filter context are as before;
the same holds of `Response` with `hasResponse` false. -/
theorem hook_absent_noop (s : script) (w : World) (f : FilterContext) :
    (s.hasRequest = false → s.Request w f = .ret (s, w, f)) ∧
    (s.hasResponse = false → s.Response w f = .ret (s, w, f)) :=
  ⟨fun h => by simp [script.Request, h], fun h => by simp [script.Response, h]⟩

/-- C15 on a filter that only has the hook `request`, and on one that has none of the
two. -/
theorem hook_absent_noop_witness :
    (requestScript (some ⟨2, [4], false⟩)).Response ⟨5, []⟩ sampleContext
      = .ret (requestScript (some ⟨2, [4], false⟩), ⟨5, []⟩, sampleContext) ∧
    ({ requestScript (some ⟨2, [4], false⟩) with hasRequest := false }).Request ⟨5, []⟩
        sampleContext
      = .ret ({ requestScript (some ⟨2, [4], false⟩) with hasRequest := false }, ⟨5, []⟩,
          sampleContext) :=
  ⟨(hook_absent_noop (requestScript (some ⟨2, [4], false⟩)) ⟨5, []⟩ sampleContext).2 rfl,
   (hook_absent_noop { requestScript (some ⟨2, [4], false⟩) with hasRequest := false }
      ⟨5, []⟩ sampleContext).1 rfl⟩

/-- C18: when `runFunc` gets the instance `L` from an open pool that stores `k` instances
with capacity `c`, `k ≤ c`, it returns what the one call `putState(L)` after the hook call
leaves, with the filter context the hook left, whatever the hook call returned; the pool
then stores `min(c, max(k, 1))` instances, which is not less than `k`. -/
theorem runFunc_puts_state_back (s s1 : script) (w w1 : World) (name : String)
    (f : FilterContext) (ch : Chan) (L : LState)
    (hp : s.pool = some ch) (ho : ch.closed = false) (hlen : ch.buf.length ≤ ch.cap)
    (hg : s.getState w = (.ok L, s1, w1)) :
    ∃ s2 w2, s1.putState w1 L = .ret (s2, w2) ∧
      s.runFunc w name f
        = .ret (s2, w2, (s.proto.call L name f (paramTable s.routeParams)).1) ∧
      s2.stored.length = min ch.cap (max ch.buf.length 1) ∧
      ch.buf.length ≤ s2.stored.length := by
  have hrun : ∀ s2 w2, s1.putState w1 L = .ret (s2, w2) →
      s.runFunc w name f
        = .ret (s2, w2, (s.proto.call L name f (paramTable s.routeParams)).1) := by
    intro s2 w2 hput
    simp only [script.runFunc, hg, hput]
  cases hb : ch.buf with
  | nil =>
    rw [getState_of_open_empty s w ch hp ho hb] at hg
    simp only [Prod.mk.injEq] at hg
    obtain ⟨-, hs, -⟩ := hg
    subst hs
    by_cases hk : ch.buf.length < ch.cap
    · have hput := putState_of_room s w1 ch L hp ho hk
      refine ⟨_, _, hput, hrun _ _ hput, ?_, ?_⟩
      · simp only [script.stored, hb, List.nil_append, List.length_singleton, List.length_nil]
        simp only [hb, List.length_nil] at hk
        omega
      · simp [script.stored, hb]
    · have hput := putState_of_full s w1 ch L hp ho hk
      refine ⟨_, _, hput, hrun _ _ hput, ?_, ?_⟩
      · simp only [script.stored, hp, hb, List.length_nil]
        simp only [hb, List.length_nil] at hk
        omega
      · simp [script.stored, hp, hb]
  | cons L0 rest =>
    rw [getState_of_cons s w ch L0 rest hp hb] at hg
    simp only [Prod.mk.injEq, Except.ok.injEq] at hg
    obtain ⟨hL, hs, hw⟩ := hg
    subst hL
    subst hs
    subst hw
    rw [hb, List.length_cons] at hlen
    have hput := putState_of_room { s with pool := some { ch with buf := rest } } w
      { ch with buf := rest } L0 rfl ho (by simp only; omega)
    have h1 : (rest ++ [L0]).length = rest.length + 1 := by simp
    refine ⟨_, _, hput, hrun _ _ hput, ?_, ?_⟩
    · show (rest ++ [L0]).length = min ch.cap (max (L0 :: rest).length 1)
      rw [h1, List.length_cons, max_eq_left (Nat.succ_le_succ (Nat.zero_le _)),
        min_eq_right hlen]
    · show (L0 :: rest).length ≤ (rest ++ [L0]).length
      rw [h1, List.length_cons]

/-- C18 on an empty pool of capacity 2 in the world with two interpreters made, with a
hook call that returns an error: interpreter 2 is made, used and stored. -/
theorem runFunc_puts_state_back_witness :
    (failingScript (some ⟨2, [], false⟩)).getState ⟨2, []⟩
      = (.ok 2, failingScript (some ⟨2, [], false⟩), ⟨3, []⟩) ∧
    ∃ s2 w2, (failingScript (some ⟨2, [], false⟩)).putState ⟨3, []⟩ 2 = .ret (s2, w2) ∧
      (failingScript (some ⟨2, [], false⟩)).runFunc ⟨2, []⟩ "request" sampleContext
        = .ret (s2, w2, (failingProto.call 2 "request" sampleContext (paramTable [])).1) ∧
      s2.stored.length = min 2 (max 0 1) ∧ 0 ≤ s2.stored.length :=
  ⟨rfl, runFunc_puts_state_back (failingScript (some ⟨2, [], false⟩))
    (failingScript (some ⟨2, [], false⟩)) ⟨2, []⟩ ⟨3, []⟩ "request" sampleContext
    ⟨2, [], false⟩ 2 rfl rfl (by decide) rfl⟩

/-! ## Hooks and pool of a built filter -/

/-- C16: a filter that `CreateFilter` returns has `hasRequest` or `hasResponse` true, and
there is an interpreter (the probe) in which the chunk loaded and in whose globals
`request` is a function exactly when `hasRequest` is true, `response` exactly when
`hasResponse` is true.  When the source compiles and the chunk loads in the probe `L` but
neither global is a function, `CreateFilter` returns the no-hook error and the world is
the one right after the probe was made, with the probe closed: nothing was seeded. -/
theorem hooks_detected (cfg : Tunables) (env : Env) (config : List GoValue) (w : World) :
    (∀ s w5, CreateFilter cfg env config w = .ret (.ok s, w5) →
      (s.hasRequest = true ∨ s.hasResponse = true) ∧
      ∃ L globals, s.proto.pcall L = .ok globals ∧
        (s.hasRequest = true ↔ (globals "request").luaType = .LTFunction) ∧
        (s.hasResponse = true ↔ (globals "response").luaType = .LTFunction)) ∧
    (∀ src rest params proto w1 L w2 globals,
      config = .string src :: rest → collectParams [] rest = some params →
      compileSource env src w = (.ok proto, w1) →
      script.newState
        { source := src, routeParams := params, pool := none, proto := proto,
          hasRequest := false, hasResponse := false } w1 = (.ok L, w2) →
      proto.pcall L = .ok globals →
      (globals "request").luaType ≠ .LTFunction →
      (globals "response").luaType ≠ .LTFunction →
      CreateFilter cfg env config w = .ret (.error (.new
        "at least one of `request` and `response` function must be present"),
        w2.close L)) := by
  constructor
  · intro s w5 hb
    have hinit : ∃ src params, initScript cfg env src params w = .ret (.ok s, w5) := by
      unfold CreateFilter at hb
      split at hb
      · simp at hb
      · split at hb
        · simp at hb
        · exact ⟨_, _, hb⟩
      · simp at hb
    obtain ⟨src, params, hinit⟩ := hinit
    obtain ⟨proto, w1, L, w2, w3, -, hn, hpool, hhook⟩ :=
      initScript_inv cfg env src params w w5 s hinit
    have hfields : s.proto = proto ∧
        s.hasRequest = decide ((script.GetGlobal
          { source := src, routeParams := params, pool := none, proto := proto,
            hasRequest := false, hasResponse := false } L "request").luaType = .LTFunction) ∧
        s.hasResponse = decide ((script.GetGlobal
          { source := src, routeParams := params, pool := none, proto := proto,
            hasRequest := false, hasResponse := false } L "response").luaType
              = .LTFunction) := by
      unfold script.initPool at hpool
      split at hpool
      · simp at hpool
      · exact seedPool_fields _ _ _ _ _ _ hpool
    obtain ⟨hproto, hreq, hresp⟩ := hfields
    have hL : L = w1.created := newState_ok _ w1 L (by rw [hn])
    have hload : ∃ globals, proto.pcall L = .ok globals := by
      simp only [script.newState] at hn
      rw [hL]
      cases hq : proto.pcall w1.created with
      | error msg => simp [hq] at hn
      | ok globals => exact ⟨globals, rfl⟩
    obtain ⟨globals, hglobals⟩ := hload
    simp only [script.GetGlobal, hglobals] at hreq hresp hhook
    refine ⟨?_, L, globals, by rw [hproto]; exact hglobals, by simp [hreq], by simp [hresp]⟩
    rcases hhook with h1 | h1
    · exact Or.inl (by simp [hreq, h1])
    · exact Or.inr (by simp [hresp, h1])
  · intro src rest params proto w1 L w2 globals hconfig hparams hc hn hglobals hreq hresp
    subst hconfig
    simp only [CreateFilter, hparams, initScript, hc, hn, script.GetGlobal, hglobals, hreq,
      hresp, decide_False, Bool.not_false, Bool.and_self, if_true]

/-- C16 on a source whose chunk defines the function `request` only: the filter is built
with `hasRequest` true and `hasResponse` false. -/
theorem hooks_detected_witness :
    CreateFilter {} requestEnv [.string "function request(ctx, params) end"] ⟨0, []⟩
      = .ret (.ok (requestScript (some ⟨10, [1, 2, 3], false⟩)),
          ⟨4, [.parse "<script>", .compile "<script>", .close 0]⟩) ∧
    ((requestScript (some ⟨10, [1, 2, 3], false⟩)).hasRequest = true ∨
      (requestScript (some ⟨10, [1, 2, 3], false⟩)).hasResponse = true) ∧
    ∃ L globals, (requestScript (some ⟨10, [1, 2, 3], false⟩)).proto.pcall L = .ok globals ∧
      ((requestScript (some ⟨10, [1, 2, 3], false⟩)).hasRequest = true ↔
        (globals "request").luaType = .LTFunction) ∧
      ((requestScript (some ⟨10, [1, 2, 3], false⟩)).hasResponse = true ↔
        (globals "response").luaType = .LTFunction) :=
  ⟨rfl, (hooks_detected {} requestEnv [.string "function request(ctx, params) end"]
    ⟨0, []⟩).1 _ _ rfl⟩

/-- C17, as amended: a filter that `CreateFilter` returns has as pool an open channel of
capacity `MaxPoolSize` that stores `min(max(InitialPoolSize, 0), MaxPoolSize)` instances,
which is `InitialPoolSize` when `0 ≤ InitialPoolSize ≤ MaxPoolSize`; with the defaults 3
and 10 it stores 3 with capacity 10. -/
theorem pool_seeded (cfg : Tunables) (env : Env) (config : List GoValue) (w w5 : World)
    (s : script) (hb : CreateFilter cfg env config w = .ret (.ok s, w5)) :
    ∃ ch, s.pool = some ch ∧ ch.closed = false ∧ (ch.cap : Int) = cfg.MaxPoolSize ∧
      (ch.buf.length : Int) = min (max cfg.InitialPoolSize 0) cfg.MaxPoolSize ∧
      (0 ≤ cfg.InitialPoolSize → cfg.InitialPoolSize ≤ cfg.MaxPoolSize →
        (ch.buf.length : Int) = cfg.InitialPoolSize) ∧
      (cfg = {} → ch.buf.length = 3 ∧ ch.cap = 10) := by
  obtain ⟨h0, ⟨ch, hp, ho, hcap, -⟩, -⟩ := CreateFilter_ok cfg env config w w5 s hb
  have hinit : ∃ src params, initScript cfg env src params w = .ret (.ok s, w5) := by
    unfold CreateFilter at hb
    split at hb
    · simp at hb
    · split at hb
      · simp at hb
      · exact ⟨_, _, hb⟩
    · simp at hb
  obtain ⟨src, params, hinit⟩ := hinit
  obtain ⟨proto, w1, L, w2, w3, -, -, hpool, -⟩ :=
    initScript_inv cfg env src params w w5 s hinit
  have hlen : s.stored.length = min (0 + cfg.InitialPoolSize.toNat) cfg.MaxPoolSize.toNat := by
    unfold script.initPool at hpool
    split at hpool
    · simp at hpool
    · exact seedPool_length _ _ _ _ _
        { cap := cfg.MaxPoolSize.toNat, buf := [], closed := false } rfl rfl
        (Nat.zero_le _) hpool
  simp only [script.stored, hp] at hlen
  have hlen1 : (ch.buf.length : Int) = min (max cfg.InitialPoolSize 0) cfg.MaxPoolSize := by
    omega
  refine ⟨ch, hp, ho, by omega, hlen1, fun h1 h2 => by omega, fun hcfg => ?_⟩
  subst hcfg
  have h3 : ({} : Tunables).InitialPoolSize = 3 := rfl
  have h10 : ({} : Tunables).MaxPoolSize = 10 := rfl
  rw [h3, h10] at hlen1
  rw [h10] at h0
  constructor <;> omega

/-- C17, as amended, on the default tunables. -/
theorem pool_seeded_witness :
    CreateFilter {} requestEnv [.string "function request(ctx, params) end"] ⟨0, []⟩
      = .ret (.ok (requestScript (some ⟨10, [1, 2, 3], false⟩)),
          ⟨4, [.parse "<script>", .compile "<script>", .close 0]⟩) ∧
    ∃ ch, (requestScript (some ⟨10, [1, 2, 3], false⟩)).pool = some ch ∧ ch.closed = false ∧
      (ch.cap : Int) = ({} : Tunables).MaxPoolSize ∧
      (ch.buf.length : Int)
        = min (max ({} : Tunables).InitialPoolSize 0) ({} : Tunables).MaxPoolSize ∧
      (0 ≤ ({} : Tunables).InitialPoolSize →
        ({} : Tunables).InitialPoolSize ≤ ({} : Tunables).MaxPoolSize →
        (ch.buf.length : Int) = ({} : Tunables).InitialPoolSize) ∧
      (({} : Tunables) = {} → ch.buf.length = 3 ∧ ch.cap = 10) :=
  ⟨rfl, pool_seeded {} requestEnv [.string "function request(ctx, params) end"] ⟨0, []⟩ _ _
    rfl⟩

/-- C17, the claim as stated fails: with `InitialPoolSize = 5` and `MaxPoolSize = 2` the
build succeeds, five instances are made for the pool, the pool stores two of them and the
instances 3, 4 and 5 are closed. -/
theorem pool_not_InitialPoolSize :
    CreateFilter ⟨5, 2⟩ requestEnv [.string "function request(ctx, params) end"] ⟨0, []⟩
      = .ret (.ok (requestScript (some ⟨2, [1, 2], false⟩)),
          ⟨6, [.parse "<script>", .compile "<script>", .close 3, .close 4, .close 5,
            .close 0]⟩) ∧
    (requestScript (some ⟨2, [1, 2], false⟩)).stored.length = 2 ∧
    ((requestScript (some ⟨2, [1, 2], false⟩)).stored.length : Int)
      ≠ (⟨5, 2⟩ : Tunables).InitialPoolSize :=
  ⟨rfl, rfl, by decide⟩

/-! ## The test helpers -/

/-- Skipping `k` characters of an occurrence is dropping them. -/
theorem occurrencesFrom_skip (substr : List Char) : ∀ (s : List Char) (k : Nat),
    occurrencesFrom substr s k = occurrencesFrom substr (s.drop k) 0 := by
  intro s
  induction s with
  | nil => intro k; simp [occurrencesFrom]
  | cons c t ih =>
    intro k
    cases k with
    | zero => rfl
    | succ k => simp only [occurrencesFrom, List.drop_succ_cons, ih k]

/-- Where the search finds nothing there is no occurrence. -/
theorem occurrencesFrom_of_Index_none (substr : List Char) : ∀ (s : List Char),
    Index s substr = none → occurrencesFrom substr s 0 = 0 := by
  intro s
  induction s with
  | nil => intro _; rfl
  | cons c t ih =>
    intro h
    by_cases hpre : substr.isPrefixOf (c :: t) = true
    · simp [Index, hpre] at h
    · simp only [Index, hpre, Bool.false_eq_true, if_false, Option.map_eq_none'] at h
      simp only [occurrencesFrom, hpre, Bool.false_eq_true, if_false]
      exact ih h

/-- An occurrence found lies inside the text. -/
theorem Index_some_le (substr : List Char) : ∀ (s : List Char) (i : Nat),
    Index s substr = some i → i + substr.length ≤ s.length := by
  intro s
  induction s with
  | nil =>
    intro i h
    by_cases hpre : substr.isPrefixOf [] = true
    · simp only [Index, hpre, if_true, Option.some.injEq] at h
      have := (List.isPrefixOf_iff_prefix.1 hpre).length_le
      omega
    · simp [Index, hpre] at h
  | cons c t ih =>
    intro i h
    by_cases hpre : substr.isPrefixOf (c :: t) = true
    · simp only [Index, hpre, if_true, Option.some.injEq] at h
      have := (List.isPrefixOf_iff_prefix.1 hpre).length_le
      omega
    · simp only [Index, hpre, Bool.false_eq_true, if_false, Option.map_eq_some'] at h
      obtain ⟨j, hj, hi⟩ := h
      have := ih j hj
      simp only [List.length_cons]
      omega

/-- Where the search finds an occurrence one is counted and the count goes on behind
it. -/
theorem occurrencesFrom_of_Index_some (substr : List Char) (hne : substr ≠ []) :
    ∀ (s : List Char) (i : Nat), Index s substr = some i →
      occurrencesFrom substr s 0
        = 1 + occurrencesFrom substr (s.drop (i + substr.length)) 0 := by
  have hpos : 0 < substr.length := List.length_pos.2 hne
  intro s
  induction s with
  | nil =>
    intro i h
    have := Index_some_le substr [] i h
    simp only [List.length_nil] at this
    omega
  | cons c t ih =>
    intro i h
    by_cases hpre : substr.isPrefixOf (c :: t) = true
    · simp only [Index, hpre, if_true, Option.some.injEq] at h
      subst h
      simp only [occurrencesFrom, hpre, if_true, Nat.zero_add]
      rw [occurrencesFrom_skip substr t (substr.length - 1)]
      have hdrop : (c :: t).drop substr.length = t.drop (substr.length - 1) := by
        obtain ⟨n, hn⟩ : ∃ n, substr.length = n + 1 := ⟨substr.length - 1, by omega⟩
        rw [hn]
        rfl
      rw [hdrop]
    · simp only [Index, hpre, Bool.false_eq_true, if_false, Option.map_eq_some'] at h
      obtain ⟨j, hj, hi⟩ := h
      subst hi
      simp only [occurrencesFrom, hpre, Bool.false_eq_true, if_false]
      rw [ih j hj]
      have hdrop : (c :: t).drop (j + 1 + substr.length) = t.drop (j + substr.length) := by
        rw [show j + 1 + substr.length = (j + substr.length) + 1 by omega]
        rfl
      rw [hdrop]

/-- With a text to search for that is not empty and more rounds than `s` has characters,
the loop of `containsCount` returns whether the counter plus the occurrences still ahead
is `count`. -/
theorem containsCountLoop_eq (substr : List Char) (count : Int) (hne : substr ≠ []) :
    ∀ (fuel : Nat) (s : List Char) (found : Int), s.length < fuel →
      containsCountLoop substr count fuel s found
        = some (decide (found + (occurrencesFrom substr s 0 : Int) = count)) := by
  have hpos : 0 < substr.length := List.length_pos.2 hne
  intro fuel
  induction fuel with
  | zero => intro s found h; omega
  | succ fuel ih =>
    intro s found hfuel
    rw [containsCountLoop]
    cases hi : Index s substr with
    | none =>
      rw [occurrencesFrom_of_Index_none substr s hi]
      simp
    | some i =>
      have hle := Index_some_le substr s i hi
      rw [occurrencesFrom_of_Index_some substr hne s i hi]
      simp only
      by_cases hfc : found = count
      · simp only [hfc, if_true, Option.some.injEq]
        symm
        rw [decide_eq_false_iff_not]
        push_cast
        omega
      · simp only [hfc, if_false]
        rw [ih (s.drop (i + substr.length)) (found + 1)
          (by simp only [List.length_drop]; omega)]
        congr 1
        push_cast
        apply decide_eq_decide.2
        constructor <;> intro h <;> omega

/-- The search for the empty text always succeeds at the start. -/
theorem Index_empty (s : List Char) : Index s [] = some 0 := by
  cases s <;> simp [Index, List.isPrefixOf]

/-- With the empty text to search for, a counter not above `count` and more rounds than
the counter is short of `count`, the loop of `containsCount` returns false. -/
theorem containsCountLoop_empty (count : Int) : ∀ (fuel : Nat) (s : List Char) (found : Int),
    found ≤ count → count - found < fuel →
    containsCountLoop [] count fuel s found = some false := by
  intro fuel
  induction fuel with
  | zero => intro s found h1 h2; simp only [Nat.cast_zero] at h2; omega
  | succ fuel ih =>
    intro s found h1 h2
    rw [containsCountLoop, Index_empty]
    simp only
    by_cases hfc : found = count
    · simp [hfc]
    · simp only [hfc, if_false, List.length_nil, Nat.add_zero, List.drop_zero]
      exact ih s (found + 1) (by omega) (by push_cast at h2; omega)

/-- With enough rounds `containsCount` returns, and returns true exactly when the number
of occurrences is `count`; for the empty text it returns false. -/
theorem containsCount_returns (fuel : Nat) (s substr : List Char) (count : Int)
    (hcount : 0 ≤ count) (hs : s.length < fuel) (hc : count < fuel) :
    ∃ b, containsCount fuel s substr count = some b ∧
      (b = true ↔ OccursTimes s substr count) := by
  by_cases hne : substr = []
  · subst hne
    refine ⟨false, containsCountLoop_empty count fuel s 0 hcount (by omega), ?_⟩
    simp [OccursTimes, occurrences]
  · refine ⟨_, containsCountLoop_eq substr count hne fuel s 0 hs, ?_⟩
    simp [OccursTimes, occurrences, hne]

/-- With enough rounds the loop over the lines returns, and returns true exactly when
every line occurs `count` times. -/
theorem containsEveryLineCountLoop_returns (fuel : Nat) (s : List Char) (count : Int)
    (hcount : 0 ≤ count) (hs : s.length < fuel) (hc : count < fuel) :
    ∀ (l : List (List Char)), ∃ b, containsEveryLineCountLoop fuel s count l = some b ∧
      (b = true ↔ ∀ li ∈ l, OccursTimes s li count) := by
  intro l
  induction l with
  | nil => exact ⟨true, rfl, by simp⟩
  | cons li l ih =>
    obtain ⟨b, hb, hiff⟩ := containsCount_returns fuel s li count hcount hs hc
    obtain ⟨b1, hb1, hiff1⟩ := ih
    cases b with
    | false =>
      refine ⟨false, by simp only [containsEveryLineCountLoop, hb], ?_⟩
      simp only [Bool.false_eq_true, false_iff, List.mem_cons, forall_eq_or_imp, not_and]
      intro h
      exact absurd (hiff.2 h) (by simp)
    | true =>
      refine ⟨b1, by simp only [containsEveryLineCountLoop, hb, hb1], ?_⟩
      rw [hiff1]
      simp only [List.mem_cons, forall_eq_or_imp]
      exact ⟨fun h => ⟨hiff.1 rfl, h⟩, fun h => h.2⟩

/-- C19: for `count ≥ 0` and more rounds than `s` has characters, `containsCount` with a
`substr` that is not empty returns, and returns true exactly when the number of
non-overlapping occurrences of `substr` in `s`, found by leftmost search again and again,
is `count`; with more rounds than `count` too, `containsEveryLineCount` returns, and
returns true exactly when this holds for every line of `substr` (an empty line has no
such number, and makes the result false). -/
theorem containsCount_counts (s substr : List Char) (count : Int) (fuel : Nat)
    (hcount : 0 ≤ count) (hs : s.length < fuel) :
    (substr ≠ [] → ∃ b, containsCount fuel s substr count = some b ∧
      (b = true ↔ OccursTimes s substr count)) ∧
    (count < fuel → ∃ b, containsEveryLineCount fuel s substr count = some b ∧
      (b = true ↔ ∀ li ∈ Split substr ['\n'], OccursTimes s li count)) := by
  constructor
  · intro hne
    refine ⟨_, containsCountLoop_eq substr count hne fuel s 0 hs, ?_⟩
    simp [OccursTimes, occurrences, hne]
  · intro hc
    exact containsEveryLineCountLoop_returns fuel s count hcount hs hc _

/-- C19 on the text `abcabc`, in which `bc` occurs twice, and on a text of two lines in
which each of the lines `a` and `b` occurs once. -/
theorem containsCount_counts_witness :
    (containsCount 7 "abcabc".toList "bc".toList 2 = some true ∧
      OccursTimes "abcabc".toList "bc".toList 2) ∧
    (containsEveryLineCount 12 "x: a\ny: b\n".toList "a\nb".toList 1 = some true ∧
      ∀ li ∈ Split "a\nb".toList ['\n'], OccursTimes "x: a\ny: b\n".toList li 1) := by
  obtain ⟨b, hb, hiff⟩ := (containsCount_counts "abcabc".toList "bc".toList 2 7
    (by decide) (by decide)).1 (by decide)
  obtain ⟨b1, hb1, hiff1⟩ := (containsCount_counts "x: a\ny: b\n".toList "a\nb".toList 1 12
    (by decide) (by decide)).2 (by decide)
  have h : containsCount 7 "abcabc".toList "bc".toList 2 = some true := by decide
  have h1 : containsEveryLineCount 12 "x: a\ny: b\n".toList "a\nb".toList 1 = some true := by
    decide
  rw [h] at hb
  rw [h1] at hb1
  simp only [Option.some.injEq] at hb hb1
  exact ⟨⟨h, hiff.1 hb.symm⟩, ⟨h1, hiff1.1 hb1.symm⟩⟩

end Skipper
